import Mathlib

/-!
Verification of the Wordle-tracker core (message parsing, identity
resolution, score/statistics bookkeeping) against its natural-language
specification.

The Python source (`Wordle_Tracker.py`) is shallowly embedded here:

* Python strings are modelled as `Str := List Char` (a Python `str` is a
  sequence of code points).  The handful of string operations the source
  uses (`.lower()`, `.strip()`, `.replace(pat, rep)`, `.startswith`,
  substring membership `in`, `str.split('\n')`, `int(...)`, `str(...)`)
  are defined below on `Str`.  `str.lower` and the regex classes `\d`,
  `\w`, `\s` are modelled on their ASCII behaviour, which covers every
  string the program manipulates.
* The three regular expressions of the source are small enough that their
  Python (leftmost, greedy with backtracking) semantics can be compiled by
  hand into total recursive functions; each is documented at its
  definition.
* The two PostgreSQL tables (`wordle_scores`, `user_stats`) are modelled
  as lists of rows, and the `INSERT ... ON CONFLICT ... DO UPDATE`
  statements as upserts on those lists.  SQL `LIKE` wildcard semantics
  (`_` matches any single character) are modelled faithfully.
-/

/-- A Python string: a sequence of code points. -/
abbrev Str := List Char

/-- Converts a Lean string literal to the `Str` model. -/
def s2l (s : String) : Str := s.data

/-- Python `s.startswith(p)` / the regex engine's literal match at the
current position. -/
def strStartsWith : Str → Str → Bool
  | _, [] => true
  | [], _ :: _ => false
  | c :: s, d :: p => c == d && strStartsWith s p

/-- Python `pat in s` (substring containment; the empty pattern is
contained in every string, as in Python). -/
def strContains : Str → Str → Bool
  | [], pat => strStartsWith [] pat
  | c :: s, pat => strStartsWith (c :: s) pat || strContains s pat

/-- Python `s.replace(pat, rep)`: replace every non-overlapping occurrence
of `pat`, scanning left to right.  (Python's special behaviour for an
empty `pat` is not modelled; the source only ever replaces the non-empty
patterns `"<@"` and `"unresolved_"`.)  The fuel argument makes the
recursion structural; every step consumes at least one character, so
`s.length` fuel always suffices (see `strReplaceAux_congr`). -/
def strReplaceAux : Nat → Str → Str → Str → Str
  | 0, s, _, _ => s
  | _ + 1, [], _, _ => []
  | fuel + 1, c :: t, pat, rep =>
    if pat ≠ [] ∧ strStartsWith (c :: t) pat = true then
      rep ++ strReplaceAux fuel (List.drop pat.length (c :: t)) pat rep
    else
      c :: strReplaceAux fuel t pat rep

/-- Python `s.replace(pat, rep)` (see `strReplaceAux`). -/
def strReplace (s pat rep : Str) : Str := strReplaceAux s.length s pat rep

/-- Python's `\s` class as used on the message text (ASCII whitespace). -/
def pySpace (c : Char) : Bool := c.isWhitespace

/-- Python's `\w` class (ASCII fragment): letters, digits and underscore. -/
def isWordChar (c : Char) : Bool := c.isAlphanum || c == '_'

/-- Python `s.strip()`: remove leading and trailing whitespace. -/
def pyStrip (s : Str) : Str :=
  ((s.dropWhile pySpace).reverse.dropWhile pySpace).reverse

/-- Python `s.lower()` (ASCII fragment of `str.lower`). -/
def strLower (s : Str) : Str := s.map Char.toLower

/-- Decimal digits of a natural number, as produced by Python `str(n)`
(fuel-indexed helper; the fuel is always sufficient at `natToStr`). -/
def natToStrAux : Nat → Nat → Str
  | 0, _ => []
  | fuel + 1, n =>
    if n < 10 then [Char.ofNat (48 + n)]
    else natToStrAux fuel (n / 10) ++ [Char.ofNat (48 + n % 10)]

/-- Python `str(n)` for a natural number `n`. -/
def natToStr (n : Nat) : Str := natToStrAux (n + 1) n

/-- Value of a non-empty digit string, as computed by Python
`int(digits)`. -/
def digitsToNat (ds : Str) : Nat :=
  ds.foldl (fun a c => a * 10 + (c.toNat - 48)) 0

/-- Python `int(s)` on the strings this program feeds it (`None` models
the `ValueError` the source catches): the digit-string case. -/
def strToNat? (s : Str) : Option Nat :=
  if s ≠ [] ∧ s.all Char.isDigit then some (digitsToNat s) else none

/-! Section: Dates

`datetime.now() - timedelta(days=1)` followed by `strftime('%Y-%m-%d')`:
a Gregorian calendar date, its predecessor, and ISO formatting. -/

/-- A calendar date (proleptic Gregorian), standing in for
`datetime.now()`'s date component. -/
structure Date where
  year : Nat
  month : Nat
  day : Nat
deriving DecidableEq, Repr

/-- Gregorian leap-year rule. -/
def isLeapYear (y : Nat) : Bool :=
  (y % 4 == 0 && y % 100 != 0) || y % 400 == 0

/-- Number of days in a month. -/
def daysInMonth (y m : Nat) : Nat :=
  if m = 2 then (if isLeapYear y then 29 else 28)
  else if m = 4 ∨ m = 6 ∨ m = 9 ∨ m = 11 then 30
  else 31

/-- Computes `date - timedelta(days=1)`. -/
def prevDay (d : Date) : Date :=
  if d.day > 1 then ⟨d.year, d.month, d.day - 1⟩
  else if d.month > 1 then ⟨d.year, d.month - 1, daysInMonth d.year (d.month - 1)⟩
  else ⟨d.year - 1, 12, 31⟩

/-- Zero-pad a decimal number to width `w` (as `strftime` does). -/
def padNum (w n : Nat) : Str :=
  List.replicate (w - (natToStr n).length) '0' ++ natToStr n

/-- Formats as `strftime('%Y-%m-%d')`. -/
def isoDate (d : Date) : Str :=
  padNum 4 d.year ++ ('-' :: padNum 2 d.month) ++ ('-' :: padNum 2 d.day)

/-! Section: The participant directory (discord guild snapshot) -/

/-- A guild member: stable numeric id plus the three alias fields the
resolver consults (`member.name`, `member.display_name`,
`member.global_name`; the last may be `None`). -/
structure Member where
  id : Nat
  name : Str
  display_name : Str
  global_name : Option Str
deriving DecidableEq, Repr

/-- A guild: discord id plus the member directory, in directory order. -/
structure Guild where
  id : Nat
  members : List Member
deriving DecidableEq, Repr

/-- The bot's caches used by `get_user_display_name`: `bot.get_guild` and
`bot.get_user`. -/
structure DiscordBot where
  guilds : List Guild
  users : List Member
deriving DecidableEq, Repr

/-! Section: Identity resolution (`resolve_username_to_user_id`,
`get_user_display_name`) -/

/-- The exact-match tier test of `resolve_username_to_user_id` for one
member (source lines 154-156): display name, username or global name
equals the lowered token.  Python's `member.global_name and ...` guard is
falsy both for `None` and for an empty string. -/
def exactMatches (ul : Str) (m : Member) : Bool :=
  strLower m.display_name == ul || strLower m.name == ul ||
    (match m.global_name with
     | some gn => !gn.isEmpty && strLower gn == ul
     | none => false)

/-- The substring (partial-match) tier test of
`resolve_username_to_user_id` for one member (source lines 161-163). -/
def subMatches (ul : Str) (m : Member) : Bool :=
  strContains (strLower m.display_name) ul || strContains (strLower m.name) ul ||
    (match m.global_name with
     | some gn => !gn.isEmpty && strContains (strLower gn) ul
     | none => false)

/-- Embeds `resolve_username_to_user_id(bot, guild, username)` (source lines
142-167; the `bot` parameter is unused by the source body).  Two ordered
tiers over the member directory, first match wins; failure (or a missing
guild) yields the token wrapped with the `unresolved_` marker. -/
def resolve_username_to_user_id (guild : Option Guild) (username : Str) : Str :=
  match guild with
  | none => s2l ("unresolved_") ++ username
  | some g =>
    let ul := strLower username
    match g.members.find? (exactMatches ul) with
    | some m => natToStr m.id
    | none =>
      match g.members.find? (subMatches ul) with
      | some m => natToStr m.id
      | none => s2l ("unresolved_") ++ username

/-- Embeds `bot.get_guild(int(guild_id)) if guild_id != "DM" else None` (source
line 223).  `none` models `int(guild_id)` raising `ValueError` (caught by
the source); `some g?` the computed guild-or-`None`. -/
def lookupGuild (bot : DiscordBot) (guild_id : Str) : Option (Option Guild) :=
  if guild_id = s2l ("DM") then some none
  else
    match strToNat? guild_id with
    | none => none
    | some gid => some (bot.guilds.find? (fun g => g.id == gid))

/-- Embeds `member.display_name or member.name`: Python `or` falls back on an
empty (falsy) display name. -/
def displayOrName (m : Member) : Str :=
  if m.display_name.isEmpty then m.name else m.display_name

/-- Embeds `get_user_display_name(bot, guild_id, user_id)` (source lines
217-236).  A marker-carrying reference has *every* occurrence of
`"unresolved_"` removed (the source uses `str.replace`, not a prefix
strip); otherwise the id is looked up in the guild (or, without a guild,
the user cache), any `ValueError`/lookup failure falling back to
`"User#<id>"`. -/
def get_user_display_name (bot : DiscordBot) (guild_id : Str) (user_id : Str) : Str :=
  if strStartsWith user_id (s2l ("unresolved_")) then
    strReplace user_id (s2l ("unresolved_")) []
  else
    match lookupGuild bot guild_id with
    | none => s2l ("User#") ++ user_id
    | some (some guild) =>
      match strToNat? user_id with
      | none => s2l ("User#") ++ user_id
      | some uid =>
        match guild.members.find? (fun m => m.id == uid) with
        | some m => displayOrName m
        | none => s2l ("User#") ++ user_id
    | some none =>
      match strToNat? user_id with
      | none => s2l ("User#") ++ user_id
      | some uid =>
        match bot.users.find? (fun m => m.id == uid) with
        | some m => displayOrName m
        | none => s2l ("User#") ++ user_id

/-! Section: The message parser (`parse_wordle_message`, source lines 326-376)

The source uses three regular expressions.  Each is compiled by hand into
a total function with Python `re` semantics (leftmost match; greedy
quantifiers; the only backtracking any of these patterns can perform is
the `\s*` before `(.+)` giving back one character, and the optional
groups `(👑\s*)?` / `!?`, all handled explicitly below — every other
adjacent pair of sub-patterns has disjoint character classes). -/

/-- One attempt of `<@!?(\d+)>` at the start of `s` (used by
`re.findall(r'<@!?(\d+)>', users_text)`).  Returns the captured digits
and the rest of the string after the match. -/
def matchDiscordAt (s : Str) : Option (Str × Str) :=
  match s with
  | '<' :: '@' :: rest =>
    let r1 := match rest with
      | '!' :: r => r
      | r => r
    let ds := r1.takeWhile Char.isDigit
    match r1.dropWhile Char.isDigit with
    | '>' :: r2 => if ds.isEmpty then none else some (ds, r2)
    | _ => none
  | _ => none

/-- Embeds `re.findall(r'<@!?(\d+)>', s)`: scan left to right, restarting one
character later after a failed attempt and after the match after a
successful one.  Fuel-structural; every step consumes at least one
character, so `s.length` fuel suffices. -/
def findDiscordMentionsAux : Nat → Str → List Str
  | 0, _ => []
  | _ + 1, [] => []
  | fuel + 1, c :: t =>
    match matchDiscordAt (c :: t) with
    | some (ds, r) => ds :: findDiscordMentionsAux fuel r
    | none => findDiscordMentionsAux fuel t

/-- Embeds `re.findall(r'<@!?(\d+)>', s)` (source line 350). -/
def findDiscordMentions (s : Str) : List Str := findDiscordMentionsAux s.length s

/-- One attempt of `@(\w+)` at the start of `s`. -/
def matchPlainAt (s : Str) : Option (Str × Str) :=
  match s with
  | '@' :: rest =>
    let w := rest.takeWhile isWordChar
    if w.isEmpty then none else some (w, rest.dropWhile isWordChar)
  | _ => none

/-- Fuel-structural scanner for `re.findall(r'@(\w+)', s)`. -/
def findPlainMentionsAux : Nat → Str → List Str
  | 0, _ => []
  | _ + 1, [] => []
  | fuel + 1, c :: t =>
    match matchPlainAt (c :: t) with
    | some (w, r) => w :: findPlainMentionsAux fuel r
    | none => findPlainMentionsAux fuel t

/-- Embeds `re.findall(r'@(\w+)', s)` (source line 352). -/
def findPlainMentions (s : Str) : List Str := findPlainMentionsAux s.length s

/-- One attempt of `Your group is on a (\d+) day streak!` at the start of
`s`.  (`\d+` is greedy and the literal that follows starts with a
non-digit, so no backtracking can occur.) -/
def matchStreakAt (s : Str) : Bool :=
  strStartsWith s (s2l ("Your group is on a ")) &&
    (let r := List.drop (s2l ("Your group is on a ")).length s
     !(r.takeWhile Char.isDigit).isEmpty &&
       strStartsWith (r.dropWhile Char.isDigit) (s2l (" day streak!")))

/-- Embeds `re.search(r"Your group is on a (\d+) day streak!", s)` as a boolean
(source lines 329-331): does the pattern match anywhere in `s`? -/
def streakFound (s : Str) : Bool := s.tails.any matchStreakAt

/-- The part of the score-line pattern after the optional crown group:
`(\d+)/6:\s*(.+)`, attempted at the start of `s`.  Returns the digit
capture (group 2) and the `(.+)` capture (group 3).  `\s*` is greedy but
gives one character back to `(.+)` when the line ends in whitespace —
the only backtracking this pattern performs. -/
def matchTail (s : Str) : Option (Str × Str) :=
  let ds := s.takeWhile Char.isDigit
  if ds.isEmpty then none
  else
    let r1 := s.dropWhile Char.isDigit
    if strStartsWith r1 (s2l ("/6:")) then
      let r2 := List.drop 3 r1
      let w := r2.takeWhile pySpace
      let r3 := r2.dropWhile pySpace
      if !r3.isEmpty then some (ds, r3)
      else
        match w.getLast? with
        | some c => some (ds, [c])
        | none => none
    else none

/-- One attempt of `(👑\s*)?(\d+)/6:\s*(.+)` at the start of `s`.
Returns (group 1 present, group 2, group 3).  When `s` starts with the
crown but the rest fails, the crownless alternative would have to match
`\d+` against the crown character itself, so the whole attempt fails. -/
def matchScoreAt (s : Str) : Option (Bool × Str × Str) :=
  match s with
  | '👑' :: rest => (matchTail (rest.dropWhile pySpace)).map (fun p => (true, p.1, p.2))
  | _ => (matchTail s).map (fun p => (false, p.1, p.2))

/-- Embeds `re.search(r"(👑\s*)?(\d+)/6:\s*(.+)", line)` (source line 342):
leftmost successful attempt. -/
def searchScore : Str → Option (Bool × Str × Str)
  | [] => none
  | c :: t =>
    match matchScoreAt (c :: t) with
    | some r => some r
    | none => searchScore t

/-- The `WordleScore` dataclass (source lines 86-91). -/
structure WordleScore where
  user : Str
  score : Nat
  date : Str
  is_winner : Bool
deriving DecidableEq, Repr

/-- The per-line body of `parse_wordle_message`'s loop (source lines
341-374): match the score pattern, then extract bracketed platform
mentions and `@`-bare mentions.  A bare token is appended only when
`"@" + token` does not occur in `users_text` with every `"<@"` replaced
by `"DISCORD_MENTION"` — the source's duplicate-suppression condition,
reproduced verbatim. -/
def lineRecords (guild : Option Guild) (now : Date) (line : Str) : List WordleScore :=
  match searchScore line with
  | none => []
  | some (is_winner, ds, g3) =>
    let score := digitsToNat ds
    let users_text := pyStrip g3
    let discord_mentions := findDiscordMentions users_text
    let plain_mentions := findPlainMentions users_text
    discord_mentions.map
      (fun user_id => ⟨user_id, score, isoDate (prevDay now), is_winner⟩)
    ++ plain_mentions.filterMap
      (fun username =>
        if strContains (strReplace users_text (s2l ("<@")) (s2l ("DISCORD_MENTION")))
            ('@' :: username) then
          none
        else
          some ⟨resolve_username_to_user_id guild username, score,
                isoDate (prevDay now), is_winner⟩)

/-- All records a message yields: the per-line records of every line of
`content.split('\n')`, in order (source lines 338-374). -/
def allRecords (content : Str) (guild : Option Guild) (now : Date) : List WordleScore :=
  (List.splitOn '\n' content).flatMap (lineRecords guild now)

/-- Embeds `parse_wordle_message(message_content, guild)` (source lines
326-376), with `datetime.now()`'s date passed in as `now`.  `none`
models Python `None` (message not applicable). -/
def parse_wordle_message (content : Str) (guild : Option Guild) (now : Date) :
    Option (List WordleScore) :=
  if streakFound content then
    let scores := allRecords content guild now
    if scores.isEmpty then none else some scores
  else none

/-! Section: The database (`wordle_scores`, `user_stats`) and its operations -/

/-- A row of the `wordle_scores` table (source lines 23-34; the
`id`/`created_at` bookkeeping columns play no role in any behaviour
specified and are omitted).  `UNIQUE(guild_id, username, date)`. -/
structure ScoreRow where
  guild_id : Str
  username : Str
  score : Nat
  date : Str
  is_winner : Bool
deriving DecidableEq, Repr

/-- A row of the `user_stats` table (source lines 37-47; `last_updated`
omitted as above).  `PRIMARY KEY (guild_id, username)`. -/
structure StatsRow where
  guild_id : Str
  username : Str
  total_score : Nat
  games_played : Nat
  wins : Nat
deriving DecidableEq, Repr

/-- The two tables. -/
structure DB where
  wordle_scores : List ScoreRow
  user_stats : List StatsRow
deriving DecidableEq, Repr

/-- Key test for the `wordle_scores` unique constraint
`(guild_id, username, date)`. -/
def scoreKeyIs (g u d : Str) (r : ScoreRow) : Bool :=
  r.guild_id == g && r.username == u && r.date == d

/-- One `INSERT ... ON CONFLICT (guild_id, username, date) DO UPDATE SET
score = EXCLUDED.score, is_winner = EXCLUDED.is_winner` (source lines
102-110): overwrite the conflicting row's payload, or append a new row. -/
def upsertScore (g : Str) (s : WordleScore) (rows : List ScoreRow) : List ScoreRow :=
  if rows.any (scoreKeyIs g s.user s.date) then
    rows.map (fun r =>
      if scoreKeyIs g s.user s.date r then
        { r with score := s.score, is_winner := s.is_winner }
      else r)
  else rows ++ [⟨g, s.user, s.score, s.date, s.is_winner⟩]

/-- Embeds `save_wordle_scores(guild_id, scores)` (source lines 95-115). -/
def save_wordle_scores (g : Str) (scores : List WordleScore) (db : DB) : DB :=
  { db with wordle_scores := scores.foldl (fun rows s => upsertScore g s rows) db.wordle_scores }

/-- Key test for the `user_stats` primary key `(guild_id, username)`. -/
def statsKeyIs (g u : Str) (r : StatsRow) : Bool :=
  r.guild_id == g && r.username == u

/-- One `INSERT ... ON CONFLICT (guild_id, username) DO UPDATE SET
total_score = total_score + score, games_played = games_played + 1,
wins = wins + (1 if winner)` (source lines 125-135). -/
def upsertStat (g : Str) (s : WordleScore) (rows : List StatsRow) : List StatsRow :=
  if rows.any (statsKeyIs g s.user) then
    rows.map (fun r =>
      if statsKeyIs g s.user r then
        { r with
            total_score := r.total_score + s.score,
            games_played := r.games_played + 1,
            wins := r.wins + (if s.is_winner then 1 else 0) }
      else r)
  else rows ++ [⟨g, s.user, s.score, 1, if s.is_winner then 1 else 0⟩]

/-- Embeds `update_user_stats(guild_id, scores)` (source lines 117-140). -/
def update_user_stats (g : Str) (scores : List WordleScore) (db : DB) : DB :=
  { db with user_stats := scores.foldl (fun rows s => upsertStat g s rows) db.user_stats }

/-- Embeds `get_user_stats(guild_id, username)` for a single user (source lines
243-250): the row for the key, or `none` for Python's empty dict. -/
def get_user_stats (g u : Str) (db : DB) : Option StatsRow :=
  db.user_stats.find? (statsKeyIs g u)

/-- Embeds `get_user_average(guild_id, username)` (source lines 261-266):
`0.0` when there is no row or no games, else exact rational division
`total_score / games_played`. -/
def get_user_average (g u : Str) (db : DB) : ℚ :=
  match get_user_stats g u db with
  | none => 0
  | some r =>
    if r.games_played = 0 then 0
    else (r.total_score : ℚ) / (r.games_played : ℚ)

/-! Section: Re-resolution (`resolve_pending_usernames`, source lines 169-215) -/

/-- The SQL filter `username LIKE 'unresolved_%'` (source lines 181-187).
In SQL `LIKE`, `_` is a single-character wildcard, so this matches any
username that starts with `"unresolved"` and has at least one further
character. -/
def likeUnresolved (u : Str) : Bool :=
  strStartsWith u (s2l ("unresolved")) && decide (11 ≤ u.length)

/-- The `SELECT DISTINCT username ... UNION SELECT DISTINCT username ...`
query (source lines 181-187): all usernames of either table, for this
guild, matching the `LIKE` filter, without duplicates. -/
def guildUnresolvedUsernames (g : Str) (db : DB) : List Str :=
  (((db.wordle_scores.filter (fun r => r.guild_id == g && likeUnresolved r.username)).map
      (fun r => r.username))
    ++ ((db.user_stats.filter (fun r => r.guild_id == g && likeUnresolved r.username)).map
      (fun r => r.username))).dedup

/-- The body of the `for entry in unresolved_entries` loop (source lines
191-212): strip the marker (the source again uses replace-all), attempt
resolution against the current directory, and on success rewrite the
username in both tables. -/
def upgradeOne (gl : Guild) (db : DB) (old : Str) : DB :=
  let actual := strReplace old (s2l ("unresolved_")) []
  let newId := resolve_username_to_user_id (some gl) actual
  if strStartsWith newId (s2l ("unresolved_")) then db
  else
    { wordle_scores := db.wordle_scores.map (fun r =>
        if r.guild_id == natToStr gl.id && r.username == old then
          { r with username := newId }
        else r),
      user_stats := db.user_stats.map (fun r =>
        if r.guild_id == natToStr gl.id && r.username == old then
          { r with username := newId }
        else r) }

/-- Embeds `resolve_pending_usernames(guild)` (source lines 169-215).  The first
component is the function's Python return value: the source returns
`None` on every path (it reports no count); the second is the updated
database state. -/
def resolve_pending_usernames (guild : Option Guild) (db : DB) : Option Nat × DB :=
  match guild with
  | none => (none, db)
  | some gl =>
    (none, (guildUnresolvedUsernames (natToStr gl.id) db).foldl (upgradeOne gl) db)

/-! Section: Concrete inputs used by the claim theorems -/

/-- The C1 scenario input from the spec (Testable properties, scenario 1). -/
def c1input : Str :=
  s2l ("Your group is on a 20 day streak! 👑 3/6: @bela\n4/6: @diego @lily\n5/6: @JoshK318 @NICO")

/-- A score line referencing one human in both mention syntaxes. -/
def c2input : Str := s2l ("Your group is on a 1 day streak!\n3/6: <@7> @bob")

/-- Directory for `c2input`: the bracket id 7 and the bare name `bob` are
the same member. -/
def c2guild : Guild := ⟨1, [⟨7, s2l ("bob"), s2l ("bob"), none⟩]⟩

/-- Streak phrase present and a line matching the score pattern, but the
trailing segment contains no mention of either kind. -/
def c3input : Str := s2l ("Your group is on a 2 day streak!\n3/6: nobody")

/-- A parseable message (bracketed mention), for witnesses. -/
def w3input : Str := s2l ("Your group is on a 2 day streak!\n3/6: <@5>")

/-- What the code produces for `w3input` (the `<@5>` is also picked up by
the bare-mention pass, whose inverted filter then double-counts it). -/
def w3list : List WordleScore :=
  [⟨s2l ("5"), 3, s2l ("2024-05-01"), false⟩,
   ⟨s2l ("unresolved_5"), 3, s2l ("2024-05-01"), false⟩]

/-- A line whose numerator is 0. -/
def c9input : Str := s2l ("Your group is on a 1 day streak!\n0/6: <@5>")

/-- A line whose numerator is 10. -/
def w9input : Str := s2l ("Your group is on a 3 day streak!\n10/6: <@5>")

/-- What the code produces for `w9input`. -/
def w9list : List WordleScore :=
  [⟨s2l ("5"), 10, s2l ("2024-05-01"), false⟩,
   ⟨s2l ("unresolved_5"), 10, s2l ("2024-05-01"), false⟩]

/-- Input for the date-sharing witness. -/
def w4input : Str := s2l ("Your group is on a 4 day streak!\n3/6: <@12>")

/-- What the code produces for `w4input` parsed on 2024-03-01 (the
records are dated to the leap day 2024-02-29). -/
def w4list : List WordleScore :=
  [⟨s2l ("12"), 3, s2l ("2024-02-29"), false⟩,
   ⟨s2l ("unresolved_12"), 3, s2l ("2024-02-29"), false⟩]

/-- Directory for the C5 witness: the first member matches `bela` only as
a substring, the second matches exactly. -/
def c5guild : Guild :=
  ⟨9, [⟨1, s2l ("xxBELAxx"), s2l ("xxbelaxx"), none⟩, ⟨2, s2l ("Bela"), s2l ("BeLa"), none⟩]⟩

/-- Directory and caches for the C6 witness. -/
def c6guild : Guild := ⟨3, [⟨8, s2l ("ann"), s2l ("Ann"), none⟩]⟩

/-- Bot caches for the C6 witness. -/
def c6bot : DiscordBot := ⟨[c6guild], []⟩

/-- Existing stats row for the C8 witness. -/
def c8db : DB := ⟨[], [⟨s2l ("g"), s2l ("u"), 3, 1, 0⟩]⟩

/-- Ingested record for the C8 witness: `u` scores 4 and wins. -/
def c8score : WordleScore := ⟨s2l ("u"), 4, s2l ("2024-05-01"), true⟩

/-! Section: Re-resolution idempotence (C7) -/

/-- Does re-resolution of the stored username `old` fail (so that the
source's `if not new_user_id.startswith('unresolved_')` guard skips the
rewrite)? -/
def failsRe (gl : Guild) (old : Str) : Bool :=
  strStartsWith
    (resolve_username_to_user_id (some gl) (strReplace old (s2l ("unresolved_")) []))
    (s2l ("unresolved_"))

/-! Section: Double ingestion (C10) -/

/-- The ingestion the `on_message` handler performs for a parsed message
(source lines 425-426): save the scores, then update the statistics. -/
def ingestScores (g : Str) (l : List WordleScore) (db : DB) : DB :=
  update_user_stats g l (save_wordle_scores g l db)

/-- The score-table fold of `save_wordle_scores`, at row level. -/
def saveRows (g : Str) (l : List WordleScore) (rows : List ScoreRow) : List ScoreRow :=
  l.foldl (fun rows s => upsertScore g s rows) rows

/-- The stats-table fold of `update_user_stats`, at row level. -/
def updRows (g : Str) (l : List WordleScore) (rows : List StatsRow) : List StatsRow :=
  l.foldl (fun rows s => upsertStat g s rows) rows

/-- The `wordle_scores` unique-constraint key of a row. -/
def scoreRowKey (r : ScoreRow) : Str × Str × Str := (r.guild_id, r.username, r.date)

/-- The row a fresh insert creates. -/
def toScoreRow (g : Str) (s : WordleScore) : ScoreRow :=
  ⟨g, s.user, s.score, s.date, s.is_winner⟩

/-- A two-participant parsed message for the C10 witness. -/
def c10list : List WordleScore :=
  [⟨s2l ("u1"), 3, s2l ("2024-05-01"), true⟩, ⟨s2l ("u2"), 4, s2l ("2024-05-01"), false⟩]

theorem strReplaceAux_congr (f1 f2 : Nat) (s pat rep : Str)
    (h1 : s.length ≤ f1) (h2 : s.length ≤ f2) :
    strReplaceAux f1 s pat rep = strReplaceAux f2 s pat rep := by
  induction f1 using Nat.strong_induction_on generalizing f2 s with
  | _ f1 ih =>
    match f1, f2, s with
    | 0, 0, s => rfl
    | 0, f2 + 1, s =>
      have : s = [] := List.length_eq_zero.1 (Nat.le_zero.1 h1)
      subst this; rfl
    | f1 + 1, 0, s =>
      have : s = [] := List.length_eq_zero.1 (Nat.le_zero.1 h2)
      subst this; rfl
    | f1 + 1, f2 + 1, [] => rfl
    | f1 + 1, f2 + 1, c :: t =>
      simp only [strReplaceAux]
      by_cases hc : pat ≠ [] ∧ strStartsWith (c :: t) pat = true
      · simp only [if_pos hc]
        have hp : 1 ≤ pat.length := by
          cases hp : pat with
          | nil => exact absurd hp hc.1
          | cons a l => simp [hp]
        have hd : (List.drop pat.length (c :: t)).length ≤ f1 := by
          simp only [List.length_drop, List.length_cons]
          simp only [List.length_cons] at h1
          omega
        have hd2 : (List.drop pat.length (c :: t)).length ≤ f2 := by
          simp only [List.length_drop, List.length_cons]
          simp only [List.length_cons] at h2
          omega
        rw [ih f1 (by omega) f2 _ hd hd2]
      · simp only [if_neg hc]
        simp only [List.length_cons] at h1 h2
        rw [ih f1 (by omega) f2 t (by omega) (by omega)]

/-- Unfolding equation for `strReplace` at a match position. -/
theorem strReplace_pos (c : Char) (t pat rep : Str)
    (hpat : pat ≠ []) (hm : strStartsWith (c :: t) pat = true) :
    strReplace (c :: t) pat rep
      = rep ++ strReplace (List.drop pat.length (c :: t)) pat rep := by
  have hp : 1 ≤ pat.length := by
    cases hq : pat with
    | nil => exact absurd hq hpat
    | cons a l => simp [hq]
  simp only [strReplace, List.length_cons, strReplaceAux, if_pos (And.intro hpat hm)]
  exact congrArg (rep ++ ·) <| strReplaceAux_congr _ _ _ _ _
    (by simp only [List.length_drop, List.length_cons]; omega)
    (le_refl _)

/-- Unfolding equation for `strReplace` at a non-match position. -/
theorem strReplace_neg (c : Char) (t pat rep : Str)
    (hm : ¬(pat ≠ [] ∧ strStartsWith (c :: t) pat = true)) :
    strReplace (c :: t) pat rep = c :: strReplace t pat rep := by
  simp only [strReplace, List.length_cons, strReplaceAux, if_neg hm]

example : resolve_username_to_user_id none (s2l ("bela")) = s2l ("unresolved_bela") := by decide

example :
    resolve_username_to_user_id
      (some ⟨1, [⟨111, s2l ("bela"), s2l ("bela"), none⟩]⟩) (s2l ("BELA")) = s2l ("111") := by decide

example : get_user_display_name ⟨[], []⟩ (s2l ("DM")) (s2l ("unresolved_bela")) = s2l ("bela") := by
  decide

example : streakFound (s2l ("Your group is on a 20 day streak! x")) = true := by decide

example : streakFound (s2l ("Your group is on a  day streak!")) = false := by decide

example : findDiscordMentions (s2l ("<@123> @bela <@!45>")) = [s2l ("123"), s2l ("45")] := by decide

example : findPlainMentions (s2l ("<@123> @bela <@!45>")) = [s2l ("123"), s2l ("bela")] := by decide

example :
    searchScore (s2l ("👑 3/6: @bela")) = some (true, s2l ("3"), s2l ("@bela")) := by decide

example :
    searchScore (s2l ("4/6: @diego @lily")) = some (false, s2l ("4"), s2l ("@diego @lily")) := by decide

example : searchScore (s2l ("Your group is on a 20 day streak!")) = none := by decide

example :
    (resolve_pending_usernames (some ⟨1, [⟨42, s2l ("bob"), s2l ("Bob"), none⟩]⟩)
        ⟨[⟨s2l ("1"), s2l ("unresolved_bob"), 3, s2l ("2024-01-01"), false⟩],
         [⟨s2l ("1"), s2l ("unresolved_bob"), 3, 1, 0⟩]⟩).2
      = ⟨[⟨s2l ("1"), s2l ("42"), 3, s2l ("2024-01-01"), false⟩],
         [⟨s2l ("1"), s2l ("42"), 3, 1, 0⟩]⟩ := by decide

/-! Section: Helper lemmas -/

theorem natToStrAux_digits (fuel n : Nat) :
    ∀ c ∈ natToStrAux fuel n, c.isDigit = true := by
  induction fuel generalizing n with
  | zero => intro c hc; simp [natToStrAux] at hc
  | succ fuel ih =>
    intro c hc
    by_cases h : n < 10
    · simp only [natToStrAux, if_pos h, List.mem_singleton] at hc
      subst hc
      interval_cases n <;> decide
    · simp only [natToStrAux, if_neg h, List.mem_append, List.mem_singleton] at hc
      rcases hc with hc | hc
      · exact ih (n / 10) c hc
      · subst hc
        have h10 : n % 10 < 10 := Nat.mod_lt _ (by omega)
        set k := n % 10 with hk
        interval_cases k <;> decide

theorem natToStr_digits (n : Nat) : ∀ c ∈ natToStr n, c.isDigit = true :=
  natToStrAux_digits (n + 1) n

theorem strStartsWith_head (s : Str) (d : Char) (p : Str)
    (h : strStartsWith s (d :: p) = true) : ∃ t, s = d :: t ∧ strStartsWith t p = true := by
  cases s with
  | nil => simp [strStartsWith] at h
  | cons c t =>
    simp only [strStartsWith, Bool.and_eq_true, beq_iff_eq] at h
    exact ⟨t, by rw [h.1], h.2⟩

/-- Because `str(n)` is all digits, it cannot start with a pattern whose first
character is not a digit. -/
theorem natToStr_not_startsWith (n : Nat) (d : Char) (p : Str)
    (hd : d.isDigit = false) : strStartsWith (natToStr n) (d :: p) = false := by
  by_contra h
  obtain ⟨t, ht, -⟩ := strStartsWith_head _ _ _ (by simpa using h)
  have := natToStr_digits n d (by rw [ht]; exact List.mem_cons_self _ _)
  rw [hd] at this
  exact Bool.false_ne_true this

theorem strStartsWith_append (p s : Str) : strStartsWith (p ++ s) p = true := by
  induction p with
  | nil => cases s <;> rfl
  | cons c t ih => simpa [strStartsWith]

/-- If the first character of the pattern equals the head, replacing in
`pat ++ s` consumes the leading `pat`. -/
theorem strReplace_append_left (pat s rep : Str) (hpat : pat ≠ []) :
    strReplace (pat ++ s) pat rep = rep ++ strReplace s pat rep := by
  cases hp : pat with
  | nil => exact absurd hp hpat
  | cons c p =>
    have : (c :: p) ++ s = c :: (p ++ s) := rfl
    rw [← hp, hp, this, strReplace_pos c (p ++ s) (c :: p) rep (by simp)
      (by rw [← this]; exact strStartsWith_append _ _)]
    congr 1
    rw [show (c :: p).length = (c :: p).length from rfl]
    rw [show (c :: (p ++ s)) = (c :: p) ++ s from rfl, List.drop_left]

theorem strContains_cons (c : Char) (t pat : Str) :
    strContains (c :: t) pat = (strStartsWith (c :: t) pat || strContains t pat) := rfl

/-- Replacing a pattern that does not occur is the identity. -/
theorem strReplace_of_not_contains (s pat rep : Str)
    (h : strContains s pat = false) : strReplace s pat rep = s := by
  induction s with
  | nil => rfl
  | cons c t ih =>
    rw [strContains_cons, Bool.or_eq_false_iff] at h
    rw [strReplace_neg c t pat rep (by simp [h.1]), ih h.2]

theorem digitsToNat_append_digit (xs : Str) (c : Char) :
    digitsToNat (xs ++ [c]) = digitsToNat xs * 10 + (c.toNat - 48) := by
  simp [digitsToNat, List.foldl_append]

theorem natToStrAux_eval (fuel n : Nat) (h : n < 10 ^ fuel) :
    digitsToNat (natToStrAux fuel n) = n := by
  induction fuel generalizing n with
  | zero =>
    simp only [pow_zero, Nat.lt_one_iff] at h
    subst h; rfl
  | succ fuel ih =>
    by_cases hn : n < 10
    · simp only [natToStrAux, if_pos hn]
      show digitsToNat ([] ++ [Char.ofNat (48 + n)]) = n
      rw [digitsToNat_append_digit]
      have : (Char.ofNat (48 + n)).toNat = 48 + n := by interval_cases n <;> decide
      simp [digitsToNat, this]
    · simp only [natToStrAux, if_neg hn]
      rw [digitsToNat_append_digit]
      have hdiv : n / 10 < 10 ^ fuel := by
        rw [pow_succ] at h
        exact Nat.div_lt_of_lt_mul (by omega)
      rw [ih _ hdiv]
      have h10 : n % 10 < 10 := Nat.mod_lt _ (by omega)
      have : (Char.ofNat (48 + n % 10)).toNat = 48 + n % 10 := by
        set k := n % 10 with hk
        interval_cases k <;> decide
      rw [this]
      omega

theorem digitsToNat_natToStr (n : Nat) : digitsToNat (natToStr n) = n :=
  natToStrAux_eval (n + 1) n (Nat.lt_trans (Nat.lt_pow_self (by omega) n)
    (Nat.pow_lt_pow_succ (by omega)))

theorem natToStrAux_ne_nil (fuel n : Nat) : natToStrAux (fuel + 1) n ≠ [] := by
  by_cases h : n < 10 <;> simp [natToStrAux, h]

/-- Round trip: `int(str(n)) = n`. -/
theorem strToNat_natToStr (n : Nat) : strToNat? (natToStr n) = some n := by
  have hne : natToStr n ≠ [] := natToStrAux_ne_nil n n
  have hall : (natToStr n).all Char.isDigit = true :=
    List.all_eq_true.2 (fun c hc => natToStr_digits n c hc)
  simp only [strToNat?, if_pos (And.intro hne hall)]
  rw [digitsToNat_natToStr]

/-- The function `find?` returns the first element satisfying the predicate: the
index-based characterization. -/
theorem find?_of_first {α : Type} (p : α → Bool) (l : List α) (i : Nat) (a : α)
    (ha : l[i]? = some a) (hp : p a = true)
    (hfirst : ∀ j, j < i → ∀ b, l[j]? = some b → p b = false) :
    l.find? p = some a := by
  induction l generalizing i with
  | nil => simp at ha
  | cons x t ih =>
    cases i with
    | zero =>
      simp only [List.getElem?_cons_zero, Option.some.injEq] at ha
      subst ha
      simp [List.find?, hp]
    | succ i =>
      have hx : p x = false := hfirst 0 (Nat.succ_pos i) x (by simp)
      simp only [List.find?, hx]
      exact ih i (by simpa using ha)
        (fun j hj b hb => hfirst (j + 1) (Nat.succ_lt_succ hj) b (by simpa using hb))

/-- Every record a line yields carries the message-level date
`now - 1 day` in ISO form. -/
theorem lineRecords_date (guild : Option Guild) (now : Date) (line : Str)
    (r : WordleScore) (hr : r ∈ lineRecords guild now line) :
    r.date = isoDate (prevDay now) := by
  unfold lineRecords at hr
  cases hs : searchScore line with
  | none => rw [hs] at hr; simp at hr
  | some t =>
    obtain ⟨w, ds, g3⟩ := t
    rw [hs] at hr
    simp only [List.mem_append] at hr
    rcases hr with hr | hr
    · obtain ⟨uid, -, he⟩ := List.mem_map.1 hr
      rw [← he]
    · obtain ⟨name, -, he⟩ := List.mem_filterMap.1 hr
      split at he
      · exact absurd he (by simp)
      · rw [← Option.some.inj he]

/-- Every record a line yields carries the numerator captured by the
score-line pattern on that line as its score. -/
theorem lineRecords_score (guild : Option Guild) (now : Date) (line : Str)
    (r : WordleScore) (hr : r ∈ lineRecords guild now line) :
    ∃ w ds g3, searchScore line = some (w, ds, g3) ∧ r.score = digitsToNat ds := by
  unfold lineRecords at hr
  cases hs : searchScore line with
  | none => rw [hs] at hr; simp at hr
  | some t =>
    obtain ⟨w, ds, g3⟩ := t
    rw [hs] at hr
    refine ⟨w, ds, g3, rfl, ?_⟩
    simp only [List.mem_append] at hr
    rcases hr with hr | hr
    · obtain ⟨uid, -, he⟩ := List.mem_map.1 hr
      rw [← he]
    · obtain ⟨name, -, he⟩ := List.mem_filterMap.1 hr
      split at he
      · exact absurd he (by simp)
      · rw [← Option.some.inj he]

/-- A successful parse returns exactly the aggregated per-line records. -/
theorem parse_some_eq (content : Str) (guild : Option Guild) (now : Date)
    (l : List WordleScore) (hp : parse_wordle_message content guild now = some l) :
    l = allRecords content guild now := by
  simp only [parse_wordle_message] at hp
  by_cases h : streakFound content
  · simp only [if_pos h] at hp
    by_cases he : (allRecords content guild now).isEmpty
    · rw [if_pos he] at hp; exact absurd hp (by simp)
    · rw [if_neg he] at hp; exact (Option.some.inj hp).symm
  · rw [if_neg h] at hp; exact absurd hp (by simp)

/-! Section: Claims -/

/-- C1: the spec scenario claims that parsing
`"Your group is on a 20 day streak! 👑 3/6: @bela\n4/6: @diego @lily\n5/6: @JoshK318 @NICO"`
with an empty/absent directory yields 5 records (bela winner at 3,
diego/lily at 4, JoshK318/NICO at 5, all unresolved, all same date).
The code disagrees: its duplicate-suppression condition (source line 366,
`if f"@{username}" not in users_text.replace("<@", "DISCORD_MENTION")`)
is inverted, so every genuine bare `@` mention is skipped; no record
survives and the parser returns `None` (not applicable), for every parse
date. -/
theorem C1_scenario_returns_none (now : Date) :
    parse_wordle_message c1input none now = none := rfl

/-- C2: the claim says a line mentioning the same participant once as a
bracketed platform mention and once as a bare `@` mention yields exactly
one record for that participant.  The code disagrees: on
`"3/6: <@7> @bob"` with a directory in which id 7 is named `bob`, the
bracket pass emits the platform record and the bare-mention pass — whose
inverted filter skips `@bob` but accepts the `@7` it reads inside
`<@7>` — emits a second, spurious `unresolved_7` record: two records for
one human. -/
theorem C2_line_double_counted :
    parse_wordle_message c2input (some c2guild) ⟨2024, 5, 2⟩
      = some [⟨s2l ("7"), 3, s2l ("2024-05-01"), false⟩,
              ⟨s2l ("unresolved_7"), 3, s2l ("2024-05-01"), false⟩] := by decide

/-- C3 counterexample: the claim says `parse` returns not-applicable
*exactly* when the streak phrase is absent, or when it is present and no
line matches the score pattern.  Here the phrase is present *and* a line
matches the score pattern (`"3/6: nobody"`), yet the parser still returns
`None`, because the matching line contains no mention and so contributes
no record. -/
theorem C3_counterexample :
    streakFound c3input = true ∧
    (List.splitOn '\n' c3input).any (fun l => (searchScore l).isSome) = true ∧
    parse_wordle_message c3input none ⟨2024, 5, 2⟩ = none := by decide

/-- C3 (amended): `parse` returns not-applicable exactly when the streak
phrase is absent or when the aggregated record list is empty (no matching
line, or matching lines yielding no mention records); it never returns an
empty list. -/
theorem C3_none_iff_no_records (content : Str) (guild : Option Guild) (now : Date) :
    (parse_wordle_message content guild now = none ↔
      (streakFound content = false ∨ allRecords content guild now = [])) ∧
    (∀ l, parse_wordle_message content guild now = some l → l ≠ []) := by
  constructor
  · simp only [parse_wordle_message]
    by_cases h : streakFound content
    · simp only [if_pos h, h]
      by_cases he : (allRecords content guild now).isEmpty
      · simp [if_pos he, List.isEmpty_iff.1 he]
      · simp only [if_neg he]
        simp only [List.isEmpty_iff] at he
        simp [he]
    · simp only [if_neg h]
      simp only [Bool.not_eq_true] at h
      simp [h]
  · intro l hp
    have hl := parse_some_eq content guild now l hp
    simp only [parse_wordle_message] at hp
    by_cases h : streakFound content
    · simp only [if_pos h] at hp
      by_cases he : (allRecords content guild now).isEmpty
      · rw [if_pos he] at hp; exact absurd hp (by simp)
      · rw [hl]
        simpa [List.isEmpty_iff] using he
    · rw [if_neg h] at hp; exact absurd hp (by simp)

/-- C3 witness: a parseable input on which the second component of
`C3_none_iff_no_records` applies with its hypothesis discharged. -/
theorem C3_witness :
    parse_wordle_message w3input none ⟨2024, 5, 2⟩ = some w3list ∧ w3list ≠ [] :=
  ⟨by decide, (C3_none_iff_no_records w3input none ⟨2024, 5, 2⟩).2 w3list (by decide)⟩

/-- C4: every record produced by one call of `parse` (at a fixed current
date `now`) carries the same date, `now - 1 day` in ISO `YYYY-MM-DD`
form; the date is a per-message constant, not a per-line value. -/
theorem C4_all_records_share_date (content : Str) (guild : Option Guild) (now : Date)
    (l : List WordleScore) (r : WordleScore)
    (hp : parse_wordle_message content guild now = some l) (hr : r ∈ l) :
    r.date = isoDate (prevDay now) := by
  rw [parse_some_eq content guild now l hp] at hr
  obtain ⟨line, -, hmem⟩ := List.mem_flatMap.1 hr
  exact lineRecords_date guild now line r hmem

/-- C4 witness: parsing on 2024-03-01 stamps the records with the leap
day 2024-02-29. -/
theorem C4_witness :
    parse_wordle_message w4input none ⟨2024, 3, 1⟩ = some w4list ∧
    (⟨s2l ("12"), 3, s2l ("2024-02-29"), false⟩ : WordleScore) ∈ w4list ∧
    (⟨s2l ("12"), 3, s2l ("2024-02-29"), false⟩ : WordleScore).date
      = isoDate (prevDay ⟨2024, 3, 1⟩) :=
  ⟨by decide, by decide,
   C4_all_records_share_date w4input none ⟨2024, 3, 1⟩ w4list _ (by decide) (by decide)⟩

/-- C9 counterexample: the claim says every record's score lies in 1-6.
The line `"0/6: <@5>"` matches the score pattern and yields records with
score 0. -/
theorem C9_counterexample :
    ((parse_wordle_message c9input none ⟨2024, 5, 2⟩).getD []).all
      (fun r => decide (1 ≤ r.score) && decide (r.score ≤ 6)) = false := by decide

/-- C9 (amended): every record's score equals the numerator captured by
the score-line pattern on its line — the parser imposes no 1-6 range
restriction (e.g. `0/6:` and `10/6:` lines are accepted as-is). -/
theorem C9_score_is_line_numerator (content : Str) (guild : Option Guild) (now : Date)
    (l : List WordleScore) (r : WordleScore)
    (hp : parse_wordle_message content guild now = some l) (hr : r ∈ l) :
    ∃ line ∈ List.splitOn '\n' content, ∃ w ds g3,
      searchScore line = some (w, ds, g3) ∧ r.score = digitsToNat ds := by
  rw [parse_some_eq content guild now l hp] at hr
  obtain ⟨line, hline, hmem⟩ := List.mem_flatMap.1 hr
  obtain ⟨w, ds, g3, hs, hsc⟩ := lineRecords_score guild now line r hmem
  exact ⟨line, hline, w, ds, g3, hs, hsc⟩

/-- C9 witness: a `10/6:` line parses to records of score 10, numerator
`"10"`. -/
theorem C9_witness :
    parse_wordle_message w9input none ⟨2024, 5, 2⟩ = some w9list ∧
    (∃ line ∈ List.splitOn '\n' w9input, ∃ w ds g3,
      searchScore line = some (w, ds, g3) ∧
      (⟨s2l ("5"), 10, s2l ("2024-05-01"), false⟩ : WordleScore).score = digitsToNat ds) :=
  ⟨by decide,
   C9_score_is_line_numerator w9input none ⟨2024, 5, 2⟩ w9list _ (by decide) (by decide)⟩

/-- C5: resolution is two-tiered and case-insensitive (both sides are
case-folded inside `exactMatches`/`subMatches`): if the i-th member is
the first member in directory order whose primary name, display name or
global alias exactly equals the folded token, resolution returns that
member's id — regardless of any substring matches at earlier members —
and the substring tier decides, again by first match in directory order,
only when no member matches exactly. -/
theorem C5_two_tier_first_match (g : Guild) (tok : Str) :
    (∀ (i : Nat) (m : Member), g.members[i]? = some m →
        exactMatches (strLower tok) m = true →
        (∀ j : Nat, j < i → ∀ m', g.members[j]? = some m' →
          exactMatches (strLower tok) m' = false) →
        resolve_username_to_user_id (some g) tok = natToStr m.id)
    ∧ ((∀ m ∈ g.members, exactMatches (strLower tok) m = false) →
        ∀ (i : Nat) (m : Member), g.members[i]? = some m →
          subMatches (strLower tok) m = true →
          (∀ j : Nat, j < i → ∀ m', g.members[j]? = some m' →
            subMatches (strLower tok) m' = false) →
          resolve_username_to_user_id (some g) tok = natToStr m.id) := by
  constructor
  · intro i m hm hp hfirst
    simp only [resolve_username_to_user_id]
    rw [find?_of_first (exactMatches (strLower tok)) g.members i m hm hp hfirst]
  · intro hnone i m hm hp hfirst
    simp only [resolve_username_to_user_id]
    rw [List.find?_eq_none.2 (fun x hx => by simp [hnone x hx])]
    rw [find?_of_first (subMatches (strLower tok)) g.members i m hm hp hfirst]

/-- C5 witness: token `BeLA` against `c5guild`: member 0 matches only as
a substring, member 1 exactly; the exact match at index 1 wins. -/
theorem C5_witness :
    subMatches (strLower (s2l ("BeLA"))) ⟨1, s2l ("xxBELAxx"), s2l ("xxbelaxx"), none⟩ = true ∧
    exactMatches (strLower (s2l ("BeLA"))) ⟨1, s2l ("xxBELAxx"), s2l ("xxbelaxx"), none⟩ = false ∧
    exactMatches (strLower (s2l ("BeLA"))) ⟨2, s2l ("Bela"), s2l ("BeLa"), none⟩ = true ∧
    resolve_username_to_user_id (some c5guild) (s2l ("BeLA")) = natToStr 2 :=
  ⟨by decide, by decide, by decide,
   (C5_two_tier_first_match c5guild (s2l ("BeLA"))).1 1
     ⟨2, s2l ("Bela"), s2l ("BeLa"), none⟩ (by decide) (by decide)
     (fun j hj m' hm' => by
       interval_cases j
       have h0 : c5guild.members[0]?
           = some (⟨1, s2l ("xxBELAxx"), s2l ("xxbelaxx"), none⟩ : Member) := by decide
       rw [h0, Option.some.injEq] at hm'
       subst hm'
       decide)⟩

/-- C6 counterexample: the claimed round-trip
`display_name(resolve(dir, t)) = t` for *every* unmatched token fails
when the token itself contains the marker substring:
`resolve` wraps `"unresolved_x"` into `"unresolved_unresolved_x"`, and
`get_user_display_name` then removes *every* occurrence of
`"unresolved_"` (the source uses `str.replace`, not a prefix strip),
returning `"x"` rather than `"unresolved_x"`. -/
theorem C6_counterexample :
    resolve_username_to_user_id none (s2l ("unresolved_x"))
        = s2l ("unresolved_unresolved_x") ∧
    get_user_display_name ⟨[], []⟩ (s2l ("DM"))
        (resolve_username_to_user_id none (s2l ("unresolved_x"))) = s2l ("x") ∧
    s2l ("x") ≠ s2l ("unresolved_x") := by decide

/-- C6 (amended): for a token with no directory or no matching tier,
`resolve` returns the token wrapped with the fixed `unresolved_` marker —
never empty, never the bare token — and `display_name` round-trips it
back to the original token *provided the token does not itself contain
the marker substring*; an identified reference whose numeric id is
absent from the directory displays as `User#<id>`. -/
theorem C6_marker_roundtrip_and_placeholder (guild : Option Guild) (tok : Str)
    (bot : DiscordBot) (gid : Str)
    (hfail : guild = none ∨ ∃ g, guild = some g ∧ ∀ m ∈ g.members,
        exactMatches (strLower tok) m = false ∧ subMatches (strLower tok) m = false) :
    resolve_username_to_user_id guild tok = s2l ("unresolved_") ++ tok ∧
    resolve_username_to_user_id guild tok ≠ [] ∧
    resolve_username_to_user_id guild tok ≠ tok ∧
    (strContains tok (s2l ("unresolved_")) = false →
      get_user_display_name bot gid (resolve_username_to_user_id guild tok) = tok) ∧
    (∀ (n : Nat) (g' : Guild), lookupGuild bot gid = some (some g') →
      (∀ m ∈ g'.members, m.id ≠ n) →
      get_user_display_name bot gid (natToStr n) = s2l ("User#") ++ natToStr n) := by
  have hmarker : (s2l ("unresolved_")) ≠ ([] : Str) := by decide
  have h1 : resolve_username_to_user_id guild tok = s2l ("unresolved_") ++ tok := by
    rcases hfail with h | ⟨g, hg, hm⟩
    · rw [h]; rfl
    · rw [hg]
      simp only [resolve_username_to_user_id]
      rw [List.find?_eq_none.2 (fun x hx => by simp [(hm x hx).1])]
      rw [List.find?_eq_none.2 (fun x hx => by simp [(hm x hx).2])]
  have hlen : (s2l ("unresolved_")).length = 11 := by decide
  refine ⟨h1, ?_, ?_, ?_, ?_⟩
  · rw [h1]
    intro h
    have := congrArg List.length h
    rw [List.length_append, hlen] at this
    simp at this
  · rw [h1]
    intro h
    have := congrArg List.length h
    rw [List.length_append, hlen] at this
    omega
  · intro hnc
    rw [h1]
    simp only [get_user_display_name]
    rw [strStartsWith_append (s2l ("unresolved_")) tok]
    simp only [if_pos rfl]
    rw [strReplace_append_left _ _ _ hmarker, List.nil_append]
    exact strReplace_of_not_contains tok _ _ hnc
  · intro n g' hlook hid
    simp only [get_user_display_name]
    have hu : s2l ("unresolved_") = 'u' :: s2l ("nresolved_") := by decide
    rw [hu, natToStr_not_startsWith n 'u' _ (by decide)]
    simp only [Bool.false_eq_true, if_false, hlook, strToNat_natToStr]
    rw [List.find?_eq_none.2 (fun m hm => by simp [hid m hm])]

/-- C6 witness: the amended round-trip and the `User#<id>` fallback at a
concrete directory. -/
theorem C6_witness :
    resolve_username_to_user_id (some c6guild) (s2l ("zzz_unknown"))
        = s2l ("unresolved_") ++ s2l ("zzz_unknown") ∧
    get_user_display_name c6bot (s2l ("3"))
        (resolve_username_to_user_id (some c6guild) (s2l ("zzz_unknown")))
      = s2l ("zzz_unknown") ∧
    get_user_display_name c6bot (s2l ("3")) (natToStr 9) = s2l ("User#") ++ natToStr 9 := by
  have h := C6_marker_roundtrip_and_placeholder (some c6guild) (s2l ("zzz_unknown")) c6bot
      (s2l ("3")) (Or.inr ⟨c6guild, rfl, by decide⟩)
  exact ⟨h.1, h.2.2.2.1 (by decide), h.2.2.2.2 9 c6guild (by decide) (by decide)⟩

/-- Pushing `find?` through a conditional-overwrite `map`: the first row
satisfying the key predicate is the old first row, overwritten. -/
theorem find?_overwrite {α : Type} (p : α → Bool) (f : α → α)
    (hf : ∀ r, p r = true → p (f r) = true) (l : List α) :
    (l.map (fun r => if p r then f r else r)).find? p = (l.find? p).map f := by
  induction l with
  | nil => rfl
  | cons x t ih =>
    by_cases hx : p x = true
    · simp only [List.map_cons, if_pos hx, List.find?_cons_of_pos _ (hf x hx),
        List.find?_cons_of_pos _ hx]
      rfl
    · have hx' : p x = false := by simpa using hx
      simp only [List.map_cons, if_neg hx, List.find?_cons_of_neg _ hx, ih]

/-- The database row for `(g, s.user)` after one stats upsert. -/
theorem get_user_stats_upsert (g : Str) (s : WordleScore) (db : DB) :
    get_user_stats g s.user (update_user_stats g [s] db)
      = some (match get_user_stats g s.user db with
              | some r =>
                { r with
                    total_score := r.total_score + s.score,
                    games_played := r.games_played + 1,
                    wins := r.wins + (if s.is_winner then 1 else 0) }
              | none => ⟨g, s.user, s.score, 1, if s.is_winner then 1 else 0⟩) := by
  have hupd : update_user_stats g [s] db
      = { db with user_stats := upsertStat g s db.user_stats } := by
    simp [update_user_stats]
  rw [hupd]
  unfold get_user_stats at *
  show (upsertStat g s db.user_stats).find? (statsKeyIs g s.user) = _
  unfold upsertStat
  by_cases hany : db.user_stats.any (statsKeyIs g s.user) = true
  · rw [if_pos hany]
    obtain ⟨r0, hr0, hp0⟩ := List.any_eq_true.1 hany
    have hfind : ∃ r, db.user_stats.find? (statsKeyIs g s.user) = some r := by
      cases hf : db.user_stats.find? (statsKeyIs g s.user) with
      | none => exact absurd hp0 (by simpa using List.find?_eq_none.1 hf r0 hr0)
      | some r => exact ⟨r, rfl⟩
    obtain ⟨r, hr⟩ := hfind
    rw [find?_overwrite (statsKeyIs g s.user) _
        (fun x hx => by simpa [statsKeyIs] using hx) db.user_stats, hr]
    rfl
  · rw [if_neg hany]
    have hnone : db.user_stats.find? (statsKeyIs g s.user) = none :=
      List.find?_eq_none.2 (fun x hx hpx =>
        hany (List.any_eq_true.2 ⟨x, hx, hpx⟩))
    rw [List.find?_append, hnone, Option.none_or]
    simp [List.find?, statsKeyIs]

/-- C8: ingesting one record updates the participant's persisted
statistics by exactly `total_score += score`, `games_played += 1`,
`wins += 1 if is_winner`, creating the row `(score, 1, winner)` if
absent; and the average is `total_score / games_played`, with average 0
when there is no row or no games. -/
theorem C8_stats_update_rule (g : Str) (s : WordleScore) (db : DB) :
    (∀ r, get_user_stats g s.user db = some r →
        get_user_stats g s.user (update_user_stats g [s] db)
          = some { r with
              total_score := r.total_score + s.score,
              games_played := r.games_played + 1,
              wins := r.wins + (if s.is_winner then 1 else 0) } ∧
        get_user_average g s.user (update_user_stats g [s] db)
          = ((r.total_score : ℚ) + (s.score : ℚ)) / ((r.games_played : ℚ) + 1)) ∧
    (get_user_stats g s.user db = none →
        get_user_stats g s.user (update_user_stats g [s] db)
          = some ⟨g, s.user, s.score, 1, if s.is_winner then 1 else 0⟩ ∧
        get_user_average g s.user (update_user_stats g [s] db) = (s.score : ℚ)) ∧
    (∀ u r, get_user_stats g u db = some r → r.games_played ≠ 0 →
        get_user_average g u db = (r.total_score : ℚ) / (r.games_played : ℚ)) ∧
    (∀ u, get_user_stats g u db = none → get_user_average g u db = 0) ∧
    (∀ u r, get_user_stats g u db = some r → r.games_played = 0 →
        get_user_average g u db = 0) := by
  refine ⟨?_, ?_, ?_, ?_, ?_⟩
  · intro r hr
    have h := get_user_stats_upsert g s db
    rw [hr] at h
    refine ⟨h, ?_⟩
    simp only [get_user_average, h]
    rw [if_neg (by omega)]
    push_cast
    ring_nf
  · intro hr
    have h := get_user_stats_upsert g s db
    rw [hr] at h
    refine ⟨h, ?_⟩
    simp only [get_user_average, h]
    norm_num
  · intro u r hr hne
    simp only [get_user_average, hr, if_neg hne]
  · intro u hr
    simp only [get_user_average, hr]
  · intro u r hr h0
    simp only [get_user_average, hr, if_pos h0]

/-- C8 witness: ingesting a winning 4 into (total 3, games 1, wins 0)
gives (total 7, games 2, wins 1) and average 7/2. -/
theorem C8_witness :
    get_user_stats (s2l ("g")) (s2l ("u")) (update_user_stats (s2l ("g")) [c8score] c8db)
      = some ⟨s2l ("g"), s2l ("u"), 7, 2, 1⟩ ∧
    get_user_average (s2l ("g")) (s2l ("u")) (update_user_stats (s2l ("g")) [c8score] c8db)
      = 7 / 2 := by
  have h := (C8_stats_update_rule (s2l ("g")) c8score c8db).1
    ⟨s2l ("g"), s2l ("u"), 3, 1, 0⟩ (by decide)
  refine ⟨h.1, ?_⟩
  show get_user_average (s2l ("g")) c8score.user
    (update_user_stats (s2l ("g")) [c8score] c8db) = 7 / 2
  rw [h.2]
  norm_num [c8score]

theorem upgradeOne_of_fails (gl : Guild) (db : DB) (u : Str)
    (h : failsRe gl u = true) : upgradeOne gl db u = db := by
  simp only [failsRe] at h
  simp only [upgradeOne]
  rw [if_pos h]

theorem fold_noop (gl : Guild) (L : List Str) (db : DB)
    (h : ∀ u ∈ L, failsRe gl u = true) :
    L.foldl (upgradeOne gl) db = db := by
  induction L generalizing db with
  | nil => rfl
  | cons v L ih =>
    rw [List.foldl_cons, upgradeOne_of_fails gl db v (h v (List.mem_cons_self v L))]
    exact ih db (fun u hu => h u (List.mem_cons_of_mem v hu))

/-- The string `str(n)` never matches the `LIKE 'unresolved_%'` filter. -/
theorem likeUnresolved_natToStr (n : Nat) : likeUnresolved (natToStr n) = false := by
  have hu : s2l ("unresolved") = 'u' :: s2l ("nresolved") := by decide
  simp only [likeUnresolved, hu, natToStr_not_startsWith n 'u' _ (by decide),
    Bool.false_and]

/-- A resolution result that does not carry the marker is a member id. -/
theorem resolve_success_shape (gl : Guild) (actual : Str)
    (h : strStartsWith (resolve_username_to_user_id (some gl) actual)
          (s2l ("unresolved_")) = false) :
    ∃ n, resolve_username_to_user_id (some gl) actual = natToStr n := by
  simp only [resolve_username_to_user_id] at h ⊢
  cases hf : gl.members.find? (exactMatches (strLower actual)) with
  | some m => exact ⟨m.id, rfl⟩
  | none =>
    rw [hf] at h
    cases hs : gl.members.find? (subMatches (strLower actual)) with
    | some m => exact ⟨m.id, rfl⟩
    | none =>
      rw [hs] at h
      have h' : strStartsWith (s2l ("unresolved_") ++ actual) (s2l ("unresolved_")) = false := h
      rw [strStartsWith_append] at h'
      exact absurd h' (by simp)

/-- The replacement username written by a successful upgrade never
matches the `LIKE` filter. -/
theorem upgrade_newId_not_like (gl : Guild) (old : Str) (h : failsRe gl old = false) :
    likeUnresolved
      (resolve_username_to_user_id (some gl) (strReplace old (s2l ("unresolved_")) []))
      = false := by
  simp only [failsRe] at h
  obtain ⟨n, hn⟩ := resolve_success_shape gl _ h
  rw [hn]
  exact likeUnresolved_natToStr n

/-- Rows after one upgrade step are original rows or carry a username
that no longer matches the `LIKE` filter. -/
theorem upgradeOne_rows (gl : Guild) (db : DB) (v : Str) :
    (∀ r ∈ (upgradeOne gl db v).wordle_scores,
        r ∈ db.wordle_scores ∨ likeUnresolved r.username = false) ∧
    (∀ r ∈ (upgradeOne gl db v).user_stats,
        r ∈ db.user_stats ∨ likeUnresolved r.username = false) := by
  by_cases hf : failsRe gl v = true
  · rw [upgradeOne_of_fails gl db v hf]
    exact ⟨fun r hr => Or.inl hr, fun r hr => Or.inl hr⟩
  · have hf' : failsRe gl v = false := by simpa using hf
    have hnl := upgrade_newId_not_like gl v hf'
    simp only [failsRe] at hf'
    simp only [upgradeOne]
    rw [if_neg (by rw [hf']; simp)]
    constructor
    · intro r hr
      simp only [List.mem_map] at hr
      obtain ⟨r0, hr0, he⟩ := hr
      by_cases hc : (r0.guild_id == natToStr gl.id && r0.username == v) = true
      · rw [if_pos hc] at he
        right
        rw [← he]
        exact hnl
      · rw [if_neg hc] at he
        exact Or.inl (he ▸ hr0)
    · intro r hr
      simp only [List.mem_map] at hr
      obtain ⟨r0, hr0, he⟩ := hr
      by_cases hc : (r0.guild_id == natToStr gl.id && r0.username == v) = true
      · rw [if_pos hc] at he
        right
        rw [← he]
        exact hnl
      · rw [if_neg hc] at he
        exact Or.inl (he ▸ hr0)

/-- Rows after the whole upgrade pass are original rows or carry a
non-`LIKE`-matching username. -/
theorem fold_rows_origin (gl : Guild) (L : List Str) (db : DB) :
    (∀ r ∈ (L.foldl (upgradeOne gl) db).wordle_scores,
        r ∈ db.wordle_scores ∨ likeUnresolved r.username = false) ∧
    (∀ r ∈ (L.foldl (upgradeOne gl) db).user_stats,
        r ∈ db.user_stats ∨ likeUnresolved r.username = false) := by
  induction L generalizing db with
  | nil => exact ⟨fun r hr => Or.inl hr, fun r hr => Or.inl hr⟩
  | cons v L ih =>
    rw [List.foldl_cons]
    constructor
    · intro r hr
      rcases (ih (upgradeOne gl db v)).1 r hr with h | h
      · exact (upgradeOne_rows gl db v).1 r h
      · exact Or.inr h
    · intro r hr
      rcases (ih (upgradeOne gl db v)).2 r hr with h | h
      · exact (upgradeOne_rows gl db v).2 r h
      · exact Or.inr h

/-- One upgrade step cannot introduce a guild-`g` row with a
`LIKE`-matching username `u` where none existed. -/
theorem upgradeOne_preserves_no_user (gl : Guild) (db : DB) (v u : Str)
    (hlike : likeUnresolved u = true)
    (hw : ∀ r ∈ db.wordle_scores, ¬(r.guild_id = natToStr gl.id ∧ r.username = u))
    (hs : ∀ r ∈ db.user_stats, ¬(r.guild_id = natToStr gl.id ∧ r.username = u)) :
    (∀ r ∈ (upgradeOne gl db v).wordle_scores,
        ¬(r.guild_id = natToStr gl.id ∧ r.username = u)) ∧
    (∀ r ∈ (upgradeOne gl db v).user_stats,
        ¬(r.guild_id = natToStr gl.id ∧ r.username = u)) := by
  by_cases hf : failsRe gl v = true
  · rw [upgradeOne_of_fails gl db v hf]
    exact ⟨hw, hs⟩
  · have hf' : failsRe gl v = false := by simpa using hf
    have hnl := upgrade_newId_not_like gl v hf'
    simp only [failsRe] at hf'
    simp only [upgradeOne]
    rw [if_neg (by rw [hf']; simp)]
    constructor
    · intro r hr
      simp only [List.mem_map] at hr
      obtain ⟨r0, hr0, he⟩ := hr
      by_cases hc : (r0.guild_id == natToStr gl.id && r0.username == v) = true
      · rw [if_pos hc] at he
        intro hcon
        rw [← he] at hcon
        have h2 : resolve_username_to_user_id (some gl)
            (strReplace v (s2l ("unresolved_")) []) = u := hcon.2
        rw [h2] at hnl
        rw [hnl] at hlike
        exact Bool.false_ne_true hlike
      · rw [if_neg hc] at he
        exact he ▸ hw r0 hr0
    · intro r hr
      simp only [List.mem_map] at hr
      obtain ⟨r0, hr0, he⟩ := hr
      by_cases hc : (r0.guild_id == natToStr gl.id && r0.username == v) = true
      · rw [if_pos hc] at he
        intro hcon
        rw [← he] at hcon
        have h2 : resolve_username_to_user_id (some gl)
            (strReplace v (s2l ("unresolved_")) []) = u := hcon.2
        rw [h2] at hnl
        rw [hnl] at hlike
        exact Bool.false_ne_true hlike
      · rw [if_neg hc] at he
        exact he ▸ hs r0 hr0

/-- The whole pass preserves the absence of guild-`g` rows with a
`LIKE`-matching username `u`. -/
theorem fold_preserves_no_user (gl : Guild) (L : List Str) (db : DB) (u : Str)
    (hlike : likeUnresolved u = true)
    (hw : ∀ r ∈ db.wordle_scores, ¬(r.guild_id = natToStr gl.id ∧ r.username = u))
    (hs : ∀ r ∈ db.user_stats, ¬(r.guild_id = natToStr gl.id ∧ r.username = u)) :
    (∀ r ∈ (L.foldl (upgradeOne gl) db).wordle_scores,
        ¬(r.guild_id = natToStr gl.id ∧ r.username = u)) ∧
    (∀ r ∈ (L.foldl (upgradeOne gl) db).user_stats,
        ¬(r.guild_id = natToStr gl.id ∧ r.username = u)) := by
  induction L generalizing db with
  | nil => exact ⟨hw, hs⟩
  | cons v L ih =>
    rw [List.foldl_cons]
    have step := upgradeOne_preserves_no_user gl db v u hlike hw hs
    exact ih (upgradeOne gl db v) step.1 step.2

/-- A successful upgrade of `u` removes every guild-`g` row with
username `u`. -/
theorem upgradeOne_removes (gl : Guild) (db : DB) (u : Str)
    (hlike : likeUnresolved u = true) (hf : failsRe gl u = false) :
    (∀ r ∈ (upgradeOne gl db u).wordle_scores,
        ¬(r.guild_id = natToStr gl.id ∧ r.username = u)) ∧
    (∀ r ∈ (upgradeOne gl db u).user_stats,
        ¬(r.guild_id = natToStr gl.id ∧ r.username = u)) := by
  have hnl := upgrade_newId_not_like gl u hf
  simp only [failsRe] at hf
  simp only [upgradeOne]
  rw [if_neg (by rw [hf]; simp)]
  constructor
  · intro r hr
    simp only [List.mem_map] at hr
    obtain ⟨r0, hr0, he⟩ := hr
    by_cases hc : (r0.guild_id == natToStr gl.id && r0.username == u) = true
    · rw [if_pos hc] at he
      intro hcon
      rw [← he] at hcon
      have h2 : resolve_username_to_user_id (some gl)
          (strReplace u (s2l ("unresolved_")) []) = u := hcon.2
      rw [h2] at hnl
      rw [hnl] at hlike
      exact Bool.false_ne_true hlike
    · rw [if_neg hc] at he
      intro hcon
      rw [← he] at hcon
      simp only [Bool.and_eq_true, beq_iff_eq] at hc
      exact hc ⟨hcon.1, hcon.2⟩
  · intro r hr
    simp only [List.mem_map] at hr
    obtain ⟨r0, hr0, he⟩ := hr
    by_cases hc : (r0.guild_id == natToStr gl.id && r0.username == u) = true
    · rw [if_pos hc] at he
      intro hcon
      rw [← he] at hcon
      have h2 : resolve_username_to_user_id (some gl)
          (strReplace u (s2l ("unresolved_")) []) = u := hcon.2
      rw [h2] at hnl
      rw [hnl] at hlike
      exact Bool.false_ne_true hlike
    · rw [if_neg hc] at he
      intro hcon
      rw [← he] at hcon
      simp only [Bool.and_eq_true, beq_iff_eq] at hc
      exact hc ⟨hcon.1, hcon.2⟩

/-- After the pass, a `LIKE`-matching username that was in the work list
and resolves successfully no longer appears on any guild-`g` row. -/
theorem fold_removes_resolved (gl : Guild) (L : List Str) (db : DB) (u : Str)
    (hu : u ∈ L) (hlike : likeUnresolved u = true) (hf : failsRe gl u = false) :
    (∀ r ∈ (L.foldl (upgradeOne gl) db).wordle_scores,
        ¬(r.guild_id = natToStr gl.id ∧ r.username = u)) ∧
    (∀ r ∈ (L.foldl (upgradeOne gl) db).user_stats,
        ¬(r.guild_id = natToStr gl.id ∧ r.username = u)) := by
  induction L generalizing db with
  | nil => simp at hu
  | cons v L ih =>
    rw [List.foldl_cons]
    by_cases hv : u = v
    · subst hv
      have base := upgradeOne_removes gl db u hlike hf
      exact fold_preserves_no_user gl L (upgradeOne gl db u) u hlike base.1 base.2
    · rcases List.mem_cons.1 hu with h | h
      · exact absurd h hv
      · exact ih (upgradeOne gl db v) h

/-- Membership in the re-resolution work list. -/
theorem mem_guildUnresolvedUsernames (g : Str) (db : DB) (u : Str) :
    u ∈ guildUnresolvedUsernames g db ↔
      (likeUnresolved u = true ∧
        ((∃ r ∈ db.wordle_scores, r.guild_id = g ∧ r.username = u) ∨
         (∃ r ∈ db.user_stats, r.guild_id = g ∧ r.username = u))) := by
  simp only [guildUnresolvedUsernames, List.mem_dedup, List.mem_append, List.mem_map,
    List.mem_filter, Bool.and_eq_true, beq_iff_eq]
  constructor
  · rintro (⟨r, ⟨hr, hg, hl⟩, hu⟩ | ⟨r, ⟨hr, hg, hl⟩, hu⟩)
    · exact ⟨hu ▸ hl, Or.inl ⟨r, hr, hg, hu⟩⟩
    · exact ⟨hu ▸ hl, Or.inr ⟨r, hr, hg, hu⟩⟩
  · rintro ⟨hl, ⟨r, hr, hg, hu⟩ | ⟨r, hr, hg, hu⟩⟩
    · exact Or.inl ⟨r, ⟨hr, hg, hu ▸ hl⟩, hu⟩
    · exact Or.inr ⟨r, ⟨hr, hg, hu ▸ hl⟩, hu⟩

/-- C7 counterexample: the claim says `reresolve_all` *returns the number
of tokens upgraded*.  The source function has no return statement on its
normal path: it returns Python `None`, even on a call that upgrades one
token (the state visibly changes). -/
theorem C7_counterexample :
    (resolve_pending_usernames (some ⟨1, [⟨42, s2l ("bob"), s2l ("Bob"), none⟩]⟩)
        ⟨[⟨s2l ("1"), s2l ("unresolved_bob"), 3, s2l ("2024-01-01"), false⟩],
         [⟨s2l ("1"), s2l ("unresolved_bob"), 3, 1, 0⟩]⟩).1 = none ∧
    (resolve_pending_usernames (some ⟨1, [⟨42, s2l ("bob"), s2l ("Bob"), none⟩]⟩)
        ⟨[⟨s2l ("1"), s2l ("unresolved_bob"), 3, s2l ("2024-01-01"), false⟩],
         [⟨s2l ("1"), s2l ("unresolved_bob"), 3, 1, 0⟩]⟩).2
      ≠ ⟨[⟨s2l ("1"), s2l ("unresolved_bob"), 3, s2l ("2024-01-01"), false⟩],
         [⟨s2l ("1"), s2l ("unresolved_bob"), 3, 1, 0⟩]⟩ := by decide

/-- C7 (amended): `resolve_pending_usernames` reports no count (its
return value is always `None`), and it is idempotent: re-running it on
its own output with an unchanged directory performs no update — every
marker-carrying username that survives the first pass is exactly one
whose re-resolution fails, and it fails again on the second pass. -/
theorem C7_reresolve_idempotent (guild : Option Guild) (db : DB) :
    (resolve_pending_usernames guild db).1 = none ∧
    resolve_pending_usernames guild ((resolve_pending_usernames guild db).2)
      = resolve_pending_usernames guild db := by
  cases guild with
  | none => exact ⟨rfl, rfl⟩
  | some gl =>
    refine ⟨rfl, ?_⟩
    simp only [resolve_pending_usernames]
    have hall : ∀ u ∈ guildUnresolvedUsernames (natToStr gl.id)
        ((guildUnresolvedUsernames (natToStr gl.id) db).foldl (upgradeOne gl) db),
        failsRe gl u = true := by
      intro u hu
      rw [mem_guildUnresolvedUsernames] at hu
      obtain ⟨hlike, hrow⟩ := hu
      by_contra hfneq
      have hf : failsRe gl u = false := by simpa using hfneq
      have huL0 : u ∈ guildUnresolvedUsernames (natToStr gl.id) db := by
        rw [mem_guildUnresolvedUsernames]
        refine ⟨hlike, ?_⟩
        rcases hrow with ⟨r, hr, hgu⟩ | ⟨r, hr, hgu⟩
        · rcases (fold_rows_origin gl _ db).1 r hr with h0 | h0
          · exact Or.inl ⟨r, h0, hgu⟩
          · rw [hgu.2, hlike] at h0
            exact absurd h0 (by simp)
        · rcases (fold_rows_origin gl _ db).2 r hr with h0 | h0
          · exact Or.inr ⟨r, h0, hgu⟩
          · rw [hgu.2, hlike] at h0
            exact absurd h0 (by simp)
      have hrem := fold_removes_resolved gl (guildUnresolvedUsernames (natToStr gl.id) db)
        db u huL0 hlike hf
      rcases hrow with ⟨r, hr, hgu⟩ | ⟨r, hr, hgu⟩
      · exact hrem.1 r hr hgu
      · exact hrem.2 r hr hgu
    rw [fold_noop gl _ _ hall]

theorem map_id_on {α : Type} (f : α → α) (l : List α) (h : ∀ a ∈ l, f a = a) :
    l.map f = l := by
  induction l with
  | nil => rfl
  | cons x t ih =>
    rw [List.map_cons, h x (List.mem_cons_self x t),
      ih (fun a ha => h a (List.mem_cons_of_mem x ha))]

theorem scoreKeyIs_iff (g u d : Str) (r : ScoreRow) :
    scoreKeyIs g u d r = true ↔ r.guild_id = g ∧ r.username = u ∧ r.date = d := by
  simp [scoreKeyIs, Bool.and_eq_true, and_assoc]

/-- A key-matching row after an upsert of the same key carries that
record's payload. -/
theorem upsertScore_values (g : Str) (s : WordleScore) (rows : List ScoreRow) :
    ∀ r ∈ upsertScore g s rows, scoreKeyIs g s.user s.date r = true →
      r.score = s.score ∧ r.is_winner = s.is_winner := by
  intro r hr hk
  unfold upsertScore at hr
  by_cases hany : rows.any (scoreKeyIs g s.user s.date) = true
  · rw [if_pos hany] at hr
    obtain ⟨r0, hr0, he⟩ := List.mem_map.1 hr
    by_cases hc : scoreKeyIs g s.user s.date r0 = true
    · rw [if_pos hc] at he
      rw [← he]
      exact ⟨rfl, rfl⟩
    · rw [if_neg hc] at he
      rw [← he] at hk
      exact absurd hk hc
  · rw [if_neg hany] at hr
    rcases List.mem_append.1 hr with h | h
    · exact absurd (List.any_eq_true.2 ⟨r, h, hk⟩) hany
    · rw [List.mem_singleton.1 h]
      exact ⟨rfl, rfl⟩

/-- An upsert of a different key leaves key-matching rows as they were
(as elements). -/
theorem upsertScore_other_key (g : Str) (b : WordleScore) (rows : List ScoreRow)
    (u dt : Str) (hne : ¬(b.user = u ∧ b.date = dt)) :
    ∀ r ∈ upsertScore g b rows, scoreKeyIs g u dt r = true → r ∈ rows := by
  intro r hr hk
  unfold upsertScore at hr
  by_cases hany : rows.any (scoreKeyIs g b.user b.date) = true
  · rw [if_pos hany] at hr
    obtain ⟨r0, hr0, he⟩ := List.mem_map.1 hr
    by_cases hc : scoreKeyIs g b.user b.date r0 = true
    · rw [if_pos hc] at he
      rw [← he] at hk
      have h1 : r0.guild_id = g ∧ r0.username = u ∧ r0.date = dt :=
        (scoreKeyIs_iff g u dt _).1 hk
      have h2 := (scoreKeyIs_iff g b.user b.date r0).1 hc
      exact absurd ⟨h2.2.1.symm.trans h1.2.1, h2.2.2.symm.trans h1.2.2⟩ hne
    · rw [if_neg hc] at he
      exact he ▸ hr0
  · rw [if_neg hany] at hr
    rcases List.mem_append.1 hr with h | h
    · exact h
    · rw [List.mem_singleton.1 h] at hk
      have h1 := (scoreKeyIs_iff g u dt _).1 hk
      exact absurd ⟨h1.2.1, h1.2.2⟩ hne

/-- Folding records none of which carries key `(u, dt)` leaves
key-matching rows as they were. -/
theorem saveRows_other_keys (g : Str) (l : List WordleScore) (rows : List ScoreRow)
    (u dt : Str) (hne : ∀ b ∈ l, ¬(b.user = u ∧ b.date = dt)) :
    ∀ r ∈ saveRows g l rows, scoreKeyIs g u dt r = true → r ∈ rows := by
  induction l generalizing rows with
  | nil => exact fun r hr _ => hr
  | cons a l ih =>
    intro r hr hk
    have h1 := ih (upsertScore g a rows)
      (fun b hb => hne b (List.mem_cons_of_mem a hb)) r hr hk
    exact upsertScore_other_key g a rows u dt (hne a (List.mem_cons_self a l)) r h1 hk

/-- After saving a key-distinct record list, a row matching the key of
`s ∈ l` carries `s`'s payload. -/
theorem saveRows_values (g : Str) (l : List WordleScore) (rows : List ScoreRow)
    (s : WordleScore) (hs : s ∈ l)
    (hnd : (l.map (fun x => (x.user, x.date))).Nodup) :
    ∀ r ∈ saveRows g l rows, scoreKeyIs g s.user s.date r = true →
      r.score = s.score ∧ r.is_winner = s.is_winner := by
  induction l generalizing rows with
  | nil => simp at hs
  | cons a l ih =>
    simp only [List.map_cons, List.nodup_cons] at hnd
    rcases List.mem_cons.1 hs with rfl | hs'
    · intro r hr hk
      have hne : ∀ b ∈ l, ¬(b.user = s.user ∧ b.date = s.date) := by
        intro b hb hcon
        exact hnd.1 (List.mem_map.2 ⟨b, hb, by rw [hcon.1, hcon.2]⟩)
      have h1 := saveRows_other_keys g l (upsertScore g s rows) s.user s.date hne r hr hk
      exact upsertScore_values g s rows r h1 hk
    · exact ih (upsertScore g a rows) hs' hnd.2

theorem upsertScore_any_self (g : Str) (s : WordleScore) (rows : List ScoreRow) :
    (upsertScore g s rows).any (scoreKeyIs g s.user s.date) = true := by
  unfold upsertScore
  by_cases hany : rows.any (scoreKeyIs g s.user s.date) = true
  · rw [if_pos hany]
    obtain ⟨r0, hr0, hk0⟩ := List.any_eq_true.1 hany
    refine List.any_eq_true.2 ⟨_, List.mem_map.2 ⟨r0, hr0, rfl⟩, ?_⟩
    rw [if_pos hk0]
    have h1 := (scoreKeyIs_iff g s.user s.date r0).1 hk0
    exact (scoreKeyIs_iff _ _ _ _).2 ⟨h1.1, h1.2.1, h1.2.2⟩
  · rw [if_neg hany]
    refine List.any_eq_true.2 ⟨toScoreRow g s, ?_, ?_⟩
    · exact List.mem_append.2 (Or.inr (List.mem_singleton.2 rfl))
    · exact (scoreKeyIs_iff _ _ _ _).2 ⟨rfl, rfl, rfl⟩

theorem upsertScore_any_mono (g : Str) (b : WordleScore) (rows : List ScoreRow)
    (u dt : Str) (h : rows.any (scoreKeyIs g u dt) = true) :
    (upsertScore g b rows).any (scoreKeyIs g u dt) = true := by
  unfold upsertScore
  obtain ⟨r0, hr0, hk0⟩ := List.any_eq_true.1 h
  by_cases hany : rows.any (scoreKeyIs g b.user b.date) = true
  · rw [if_pos hany]
    refine List.any_eq_true.2 ⟨_, List.mem_map.2 ⟨r0, hr0, rfl⟩, ?_⟩
    by_cases hc : scoreKeyIs g b.user b.date r0 = true
    · rw [if_pos hc]
      have h1 := (scoreKeyIs_iff g u dt r0).1 hk0
      exact (scoreKeyIs_iff _ _ _ _).2 ⟨h1.1, h1.2.1, h1.2.2⟩
    · rw [if_neg hc]
      exact hk0
  · rw [if_neg hany]
    exact List.any_eq_true.2 ⟨r0, List.mem_append.2 (Or.inl hr0), hk0⟩

theorem saveRows_any_mono (g : Str) (l : List WordleScore) (rows : List ScoreRow)
    (u dt : Str) (h : rows.any (scoreKeyIs g u dt) = true) :
    (saveRows g l rows).any (scoreKeyIs g u dt) = true := by
  induction l generalizing rows with
  | nil => exact h
  | cons a l ih => exact ih _ (upsertScore_any_mono g a rows u dt h)

theorem saveRows_any (g : Str) (l : List WordleScore) (rows : List ScoreRow)
    (s : WordleScore) (hs : s ∈ l) :
    (saveRows g l rows).any (scoreKeyIs g s.user s.date) = true := by
  induction l generalizing rows with
  | nil => simp at hs
  | cons a l ih =>
    rcases List.mem_cons.1 hs with rfl | hs'
    · exact saveRows_any_mono g l (upsertScore g s rows) s.user s.date
        (upsertScore_any_self g s rows)
    · exact ih (upsertScore g a rows) hs'

/-- An upsert whose payload is already stored is the identity. -/
theorem upsertScore_id (g : Str) (s : WordleScore) (rows : List ScoreRow)
    (hany : rows.any (scoreKeyIs g s.user s.date) = true)
    (hvals : ∀ r ∈ rows, scoreKeyIs g s.user s.date r = true →
        r.score = s.score ∧ r.is_winner = s.is_winner) :
    upsertScore g s rows = rows := by
  unfold upsertScore
  rw [if_pos hany]
  apply map_id_on
  intro r hr
  by_cases hc : scoreKeyIs g s.user s.date r = true
  · rw [if_pos hc]
    obtain ⟨h1, h2⟩ := hvals r hr hc
    cases r
    simp only at h1 h2
    simp [h1, h2]
  · rw [if_neg hc]

theorem saveRows_id (g : Str) (l : List WordleScore) (rows : List ScoreRow)
    (h : ∀ s ∈ l, rows.any (scoreKeyIs g s.user s.date) = true ∧
        ∀ r ∈ rows, scoreKeyIs g s.user s.date r = true →
          r.score = s.score ∧ r.is_winner = s.is_winner) :
    saveRows g l rows = rows := by
  induction l with
  | nil => rfl
  | cons a l ih =>
    show saveRows g l (upsertScore g a rows) = rows
    rw [upsertScore_id g a rows (h a (List.mem_cons_self a l)).1
      (h a (List.mem_cons_self a l)).2]
    exact ih (fun s hs => h s (List.mem_cons_of_mem a hs))

/-- Saving the same key-distinct record list twice is the same as saving
it once, on the score store. -/
theorem saveRows_idem (g : Str) (l : List WordleScore) (rows : List ScoreRow)
    (hnd : (l.map (fun x => (x.user, x.date))).Nodup) :
    saveRows g l (saveRows g l rows) = saveRows g l rows :=
  saveRows_id g l _ (fun s hs =>
    ⟨saveRows_any g l rows s hs, saveRows_values g l rows s hs hnd⟩)

theorem upsertScore_nodup_keys (g : Str) (s : WordleScore) (rows : List ScoreRow)
    (h : (rows.map scoreRowKey).Nodup) :
    ((upsertScore g s rows).map scoreRowKey).Nodup := by
  unfold upsertScore
  by_cases hany : rows.any (scoreKeyIs g s.user s.date) = true
  · rw [if_pos hany]
    rw [List.map_map]
    have : (scoreRowKey ∘ fun r =>
        if scoreKeyIs g s.user s.date r = true then
          { r with score := s.score, is_winner := s.is_winner } else r)
        = scoreRowKey := by
      funext r
      by_cases hc : scoreKeyIs g s.user s.date r = true
      · simp [Function.comp, if_pos hc, scoreRowKey]
      · simp [Function.comp, if_neg hc]
    rw [this]
    exact h
  · rw [if_neg hany]
    rw [List.map_append]
    rw [List.nodup_append]
    refine ⟨h, List.nodup_singleton _, ?_⟩
    intro k hk hk2
    simp only [List.map_cons, List.map_nil, List.mem_singleton] at hk2
    obtain ⟨r0, hr0, hkey⟩ := List.mem_map.1 hk
    rw [hk2] at hkey
    have : scoreKeyIs g s.user s.date r0 = true := by
      simp only [toScoreRow, scoreRowKey, Prod.mk.injEq] at hkey
      exact (scoreKeyIs_iff _ _ _ _).2 ⟨hkey.1, hkey.2.1, hkey.2.2⟩
    exact hany (List.any_eq_true.2 ⟨r0, hr0, this⟩)

theorem saveRows_nodup_keys (g : Str) (l : List WordleScore) (rows : List ScoreRow)
    (h : (rows.map scoreRowKey).Nodup) :
    ((saveRows g l rows).map scoreRowKey).Nodup := by
  induction l generalizing rows with
  | nil => exact h
  | cons a l ih => exact ih _ (upsertScore_nodup_keys g a rows h)

/-- With key-distinct rows, at most one row matches a key. -/
theorem filter_key_len_le_one (rows : List ScoreRow) (g u dt : Str)
    (h : (rows.map scoreRowKey).Nodup) :
    (rows.filter (scoreKeyIs g u dt)).length ≤ 1 := by
  induction rows with
  | nil => simp
  | cons r rows ih =>
    simp only [List.map_cons, List.nodup_cons] at h
    by_cases hc : scoreKeyIs g u dt r = true
    · rw [List.filter_cons_of_pos hc]
      have hrest : rows.filter (scoreKeyIs g u dt) = [] := by
        rw [List.filter_eq_nil_iff]
        intro r2 hr2 hk2
        apply h.1
        refine List.mem_map.2 ⟨r2, hr2, ?_⟩
        have h1 := (scoreKeyIs_iff g u dt r).1 hc
        have h2 := (scoreKeyIs_iff g u dt r2).1 hk2
        simp [scoreRowKey, h1.1, h1.2.1, h1.2.2, h2.1, h2.2.1, h2.2.2]
      rw [hrest]
      simp
    · rw [List.filter_cons_of_neg (by simp [hc])]
      exact ih h.2

/-- With key-distinct rows containing the key, exactly one row matches. -/
theorem filter_key_len_eq_one (rows : List ScoreRow) (g u dt : Str)
    (hnd : (rows.map scoreRowKey).Nodup)
    (hany : rows.any (scoreKeyIs g u dt) = true) :
    (rows.filter (scoreKeyIs g u dt)).length = 1 := by
  have hle := filter_key_len_le_one rows g u dt hnd
  obtain ⟨r0, hr0, hk0⟩ := List.any_eq_true.1 hany
  have hmem : r0 ∈ rows.filter (scoreKeyIs g u dt) := List.mem_filter.2 ⟨hr0, hk0⟩
  have hge : 1 ≤ (rows.filter (scoreKeyIs g u dt)).length := by
    cases hfe : rows.filter (scoreKeyIs g u dt) with
    | nil => rw [hfe] at hmem; simp at hmem
    | cons x t => simp [hfe]
  omega

theorem statsKeyIs_iff (g u : Str) (r : StatsRow) :
    statsKeyIs g u r = true ↔ r.guild_id = g ∧ r.username = u := by
  simp [statsKeyIs, Bool.and_eq_true]

theorem find?_map_untouched {α : Type} (p : α → Bool) (f : α → α) (l : List α)
    (hkey : ∀ r, p (f r) = p r) (hfix : ∀ r, p r = true → f r = r) :
    (l.map f).find? p = l.find? p := by
  induction l with
  | nil => rfl
  | cons x t ih =>
    by_cases hx : p x = true
    · rw [List.map_cons, List.find?_cons_of_pos _ ((hkey x).trans hx),
        List.find?_cons_of_pos _ hx, hfix x hx]
    · have hx' : p (f x) = false := (hkey x).trans (by simpa using hx)
      rw [List.map_cons, List.find?_cons_of_neg _ (by simp [hx']),
        List.find?_cons_of_neg _ (by simpa using hx), ih]

/-- A stats upsert for another user does not move or change this user's
row. -/
theorem upsertStat_other_user (g : Str) (b : WordleScore) (rows : List StatsRow)
    (u : Str) (hne : b.user ≠ u) :
    (upsertStat g b rows).find? (statsKeyIs g u) = rows.find? (statsKeyIs g u) := by
  unfold upsertStat
  by_cases hany : rows.any (statsKeyIs g b.user) = true
  · rw [if_pos hany]
    apply find?_map_untouched
    · intro r
      by_cases hc : statsKeyIs g b.user r = true
      · rw [if_pos hc]
        simp [statsKeyIs]
      · rw [if_neg hc]
    · intro r hp
      have h1 := (statsKeyIs_iff g u r).1 hp
      rw [if_neg (fun hc => hne (((statsKeyIs_iff g b.user r).1 hc).2.symm.trans h1.2))]
  · rw [if_neg hany]
    rw [List.find?_append]
    have hb : (b.user == u) = false := beq_eq_false_iff_ne.2 hne
    have hn : List.find? (statsKeyIs g u)
        [⟨g, b.user, b.score, 1, if b.is_winner then 1 else 0⟩] = none := by
      simp [List.find?, statsKeyIs, hb]
    rw [hn]
    exact Option.or_none

theorem updRows_other_users (g : Str) (l : List WordleScore) (rows : List StatsRow)
    (u : Str) (hne : ∀ b ∈ l, b.user ≠ u) :
    (updRows g l rows).find? (statsKeyIs g u) = rows.find? (statsKeyIs g u) := by
  induction l generalizing rows with
  | nil => rfl
  | cons a l ih =>
    show (updRows g l (upsertStat g a rows)).find? _ = _
    rw [ih (upsertStat g a rows) (fun b hb => hne b (List.mem_cons_of_mem a hb))]
    exact upsertStat_other_user g a rows u (hne a (List.mem_cons_self a l))

/-- Row-level form of `get_user_stats_upsert`. -/
theorem upsertStat_find_self (g : Str) (s : WordleScore) (rows : List StatsRow) :
    (upsertStat g s rows).find? (statsKeyIs g s.user)
      = some (match rows.find? (statsKeyIs g s.user) with
              | some r =>
                { r with
                    total_score := r.total_score + s.score,
                    games_played := r.games_played + 1,
                    wins := r.wins + (if s.is_winner then 1 else 0) }
              | none => ⟨g, s.user, s.score, 1, if s.is_winner then 1 else 0⟩) :=
  get_user_stats_upsert g s ⟨[], rows⟩

/-- The statistics row of `s.user` after ingesting a user-distinct record
list containing `s`: the old row with `s`'s increments, or a fresh row. -/
theorem updRows_find (g : Str) (l : List WordleScore) (rows : List StatsRow)
    (s : WordleScore) (hs : s ∈ l) (hnd : (l.map (fun x => x.user)).Nodup) :
    (updRows g l rows).find? (statsKeyIs g s.user)
      = some (match rows.find? (statsKeyIs g s.user) with
              | some r =>
                { r with
                    total_score := r.total_score + s.score,
                    games_played := r.games_played + 1,
                    wins := r.wins + (if s.is_winner then 1 else 0) }
              | none => ⟨g, s.user, s.score, 1, if s.is_winner then 1 else 0⟩) := by
  induction l generalizing rows with
  | nil => simp at hs
  | cons a l ih =>
    simp only [List.map_cons, List.nodup_cons] at hnd
    rcases List.mem_cons.1 hs with rfl | hs'
    · show (updRows g l (upsertStat g s rows)).find? _ = _
      rw [updRows_other_users g l (upsertStat g s rows) s.user
        (fun b hb heq => hnd.1 (List.mem_map.2 ⟨b, hb, heq⟩))]
      exact upsertStat_find_self g s rows
    · show (updRows g l (upsertStat g a rows)).find? _ = _
      rw [ih (upsertStat g a rows) hs' hnd.2]
      rw [upsertStat_other_user g a rows s.user
        (fun heq => hnd.1 (List.mem_map.2 ⟨s, hs', heq.symm⟩))]

theorem users_nodup_of_keys (l : List WordleScore) (d : Str)
    (hnd : (l.map (fun s => (s.user, s.date))).Nodup)
    (hdate : ∀ s ∈ l, s.date = d) :
    (l.map (fun s => s.user)).Nodup := by
  induction l with
  | nil => simp
  | cons a l ih =>
    simp only [List.map_cons, List.nodup_cons] at hnd ⊢
    refine ⟨?_, ih hnd.2 (fun s hs => hdate s (List.mem_cons_of_mem a hs))⟩
    intro hmem
    obtain ⟨s, hsl, hus⟩ := List.mem_map.1 hmem
    apply hnd.1
    refine List.mem_map.2 ⟨s, hsl, ?_⟩
    rw [hus]
    rw [hdate s (List.mem_cons_of_mem a hsl), hdate a (List.mem_cons_self a l)]

theorem filter_user_eq (l : List WordleScore) (s : WordleScore) (hs : s ∈ l)
    (hnd : (l.map (fun x => x.user)).Nodup) :
    l.filter (fun x => x.user == s.user) = [s] := by
  induction l with
  | nil => simp at hs
  | cons a l ih =>
    simp only [List.map_cons, List.nodup_cons] at hnd
    rcases List.mem_cons.1 hs with rfl | hs'
    · rw [List.filter_cons_of_pos (by simp)]
      have hempty : l.filter (fun x => x.user == s.user) = [] := by
        rw [List.filter_eq_nil_iff]
        intro x hx hbx
        exact hnd.1 (List.mem_map.2 ⟨x, hx, by simpa using hbx⟩)
      rw [hempty]
    · have hne : a.user ≠ s.user := fun heq => hnd.1 (List.mem_map.2 ⟨s, hs', heq.symm⟩)
      rw [List.filter_cons_of_neg (by simp [hne])]
      exact ih hs' hnd.2

/-- Saving a key-distinct record list into a store that contains none of
its keys appends one fresh row per record. -/
theorem saveRows_fresh (g : Str) (l : List WordleScore) (rows : List ScoreRow)
    (hnd : (l.map (fun x => (x.user, x.date))).Nodup)
    (hfresh : ∀ s ∈ l, rows.any (scoreKeyIs g s.user s.date) = false) :
    saveRows g l rows = rows ++ l.map (toScoreRow g) := by
  induction l generalizing rows with
  | nil => simp [saveRows]
  | cons a l ih =>
    simp only [List.map_cons, List.nodup_cons] at hnd
    show saveRows g l (upsertScore g a rows) = _
    have h1 : upsertScore g a rows = rows ++ [toScoreRow g a] := by
      unfold upsertScore
      rw [if_neg (by simp [hfresh a (List.mem_cons_self a l)])]
      rfl
    rw [h1, ih (rows ++ [toScoreRow g a]) hnd.2 ?_]
    · rw [List.append_assoc]
      rfl
    · intro s hs
      rw [List.any_append, hfresh s (List.mem_cons_of_mem a hs)]
      simp only [Bool.false_or, List.any_cons, List.any_nil, Bool.or_false]
      by_contra hcon
      simp only [Bool.not_eq_false] at hcon
      have h2 : (toScoreRow g a).guild_id = g ∧ (toScoreRow g a).username = s.user ∧
          (toScoreRow g a).date = s.date := (scoreKeyIs_iff _ _ _ _).1 hcon
      apply hnd.1
      refine List.mem_map.2 ⟨s, hs, ?_⟩
      have hu : a.user = s.user := h2.2.1
      have hd : a.date = s.date := h2.2.2
      rw [← hu, ← hd]

/-- C10: ingesting the same parsed message twice (same guild, list of
key-distinct participants, one shared date) leaves the score store as
after one ingestion — the upsert keyed on (guild, participant, date)
keeps exactly one row per participant and date, overwriting payloads —
but the statistics store is incremented again: each participant's
`total_score`, `games_played`, `wins` all grow a second time, so from an
empty store a duplicated message leaves `games_played = 2` against a
single distinct recorded date. -/
theorem C10_double_ingest (g : Str) (l : List WordleScore) (db : DB) (d : Str)
    (hnd : (l.map (fun s => (s.user, s.date))).Nodup)
    (hdate : ∀ s ∈ l, s.date = d)
    (h0 : (db.wordle_scores.map scoreRowKey).Nodup) :
    (ingestScores g l (ingestScores g l db)).wordle_scores
        = (ingestScores g l db).wordle_scores ∧
    (∀ s ∈ l, ((ingestScores g l (ingestScores g l db)).wordle_scores.filter
        (scoreKeyIs g s.user s.date)).length = 1) ∧
    (∀ s ∈ l, ∀ r1, get_user_stats g s.user (ingestScores g l db) = some r1 →
        get_user_stats g s.user (ingestScores g l (ingestScores g l db))
          = some { r1 with
              total_score := r1.total_score + s.score,
              games_played := r1.games_played + 1,
              wins := r1.wins + (if s.is_winner then 1 else 0) }) ∧
    (db.wordle_scores = [] → db.user_stats = [] → ∀ s ∈ l,
        (∃ r2, get_user_stats g s.user (ingestScores g l (ingestScores g l db)) = some r2 ∧
            r2.games_played = 2) ∧
        ((((ingestScores g l (ingestScores g l db)).wordle_scores.filter
            (fun r => r.guild_id == g && r.username == s.user)).map
            (fun r => r.date)).dedup.length = 1)) := by
  have husers := users_nodup_of_keys l d hnd hdate
  have ew1 : (ingestScores g l db).wordle_scores = saveRows g l db.wordle_scores := rfl
  have ew2 : (ingestScores g l (ingestScores g l db)).wordle_scores
      = saveRows g l (saveRows g l db.wordle_scores) := rfl
  have es1 : ∀ u, get_user_stats g u (ingestScores g l db)
      = (updRows g l db.user_stats).find? (statsKeyIs g u) := fun u => rfl
  have es2 : ∀ u, get_user_stats g u (ingestScores g l (ingestScores g l db))
      = (updRows g l (updRows g l db.user_stats)).find? (statsKeyIs g u) := fun u => rfl
  have ha : saveRows g l (saveRows g l db.wordle_scores) = saveRows g l db.wordle_scores :=
    saveRows_idem g l db.wordle_scores hnd
  refine ⟨?_, ?_, ?_, ?_⟩
  · rw [ew2, ha, ew1]
  · intro s hs
    rw [ew2, ha]
    exact filter_key_len_eq_one _ g s.user s.date
      (saveRows_nodup_keys g l db.wordle_scores h0)
      (saveRows_any g l db.wordle_scores s hs)
  · intro s hs r1 hr1
    rw [es1] at hr1
    rw [es2 s.user, updRows_find g l (updRows g l db.user_stats) s hs husers, hr1]
  · intro hw hsrows s hs
    have h1 : (updRows g l db.user_stats).find? (statsKeyIs g s.user)
        = some ⟨g, s.user, s.score, 1, if s.is_winner then 1 else 0⟩ := by
      rw [updRows_find g l db.user_stats s hs husers, hsrows]
      rfl
    constructor
    · refine ⟨⟨g, s.user, s.score + s.score, 1 + 1,
        (if s.is_winner then 1 else 0) + (if s.is_winner then 1 else 0)⟩, ?_, rfl⟩
      rw [es2 s.user, updRows_find g l (updRows g l db.user_stats) s hs husers, h1]
    · rw [ew2, ha, hw, saveRows_fresh g l [] hnd (fun x hx => rfl), List.nil_append]
      rw [List.filter_map]
      have hpf : ((fun r : ScoreRow => r.guild_id == g && r.username == s.user)
          ∘ toScoreRow g) = fun x : WordleScore => x.user == s.user := by
        funext x
        simp [Function.comp, toScoreRow]
      rw [hpf, filter_user_eq l s hs husers]
      simp

/-- C10 witness: double-ingesting a concrete two-record message from an
empty database leaves the score store unchanged while `u1`'s
`games_played` reaches 2. -/
theorem C10_witness :
    (ingestScores (s2l ("g")) c10list (ingestScores (s2l ("g")) c10list ⟨[], []⟩)).wordle_scores
      = (ingestScores (s2l ("g")) c10list ⟨[], []⟩).wordle_scores ∧
    (∃ r2, get_user_stats (s2l ("g")) (s2l ("u1"))
        (ingestScores (s2l ("g")) c10list (ingestScores (s2l ("g")) c10list ⟨[], []⟩))
        = some r2 ∧ r2.games_played = 2) := by
  have h := C10_double_ingest (s2l ("g")) c10list ⟨[], []⟩ (s2l ("2024-05-01"))
    (by decide) (by decide) (by decide)
  refine ⟨h.1, ?_⟩
  exact (h.2.2.2 rfl rfl ⟨s2l ("u1"), 3, s2l ("2024-05-01"), true⟩ (by decide)).1
